import Mathlib

/-!
Formal model of the elastic-search-performance-benchmark repository.

The development shallowly embeds the two core stages of the pipeline:

* campaign side: configuration-space generation
  (src/persistence/utils.ts, latest revision: generateNumericValues,
  applyVariationToConfig, generateConfigurations; the campaign loop of
  the campaign runner: executeConfiguration, runCampaign) and the legacy
  product-structure revision of applyVariationToConfig;
* aggregation side: the StreamProcessor of
  src/visualization/chart-generator.ts (extractChartInfo,
  calculateSearchAverage, updateAggregation, processFile, chunkArray,
  processAllResults, isCacheValid, loadFromCache, saveToCache,
  calculateStats) together with the chart-data assembler (loadChartData).

Modelling conventions:

* JavaScript numbers are modelled as exact rationals; double rounding is
  not modelled (all claims are exercised on values where doubles are
  exact).
* JavaScript values of type string-or-number (swept values, map keys)
  are a three-way sum JsVal, with an explicit undefined to model access
  to absent properties of dynamically shaped records.
* Potentially non-terminating loops are embedded with an explicit fuel
  argument; a result of none at every fuel models divergence.
* File-system effects (result directory, cache file) are explicit state
  (FsState); asynchronous file reads are modelled in file order (the
  source processes chunks of at most maxParallel files concurrently and
  chunks sequentially; appends happen in completion order, which the
  model fixes to directory order).
-/

namespace Bench

/-- A JavaScript string-or-number value; undef models property access on
a dynamically shaped object that lacks the property. -/
inductive JsVal where
  | num (q : ℚ)
  | str (s : String)
  | undef
deriving DecidableEq, Repr

/-- Rendering of a JavaScript number by toString / template literals.
Integral doubles print without a decimal point; the claims only ever
stringify integral values, so non-integral rendering is approximated by
the Lean representation of the rational. -/
def jsNumToString (q : ℚ) : String :=
  if q.den = 1 then toString q.num else toString q

/-- Rendering String(v) of a string-or-number value (template literals,
Object.fromEntries key stringification). -/
def jsValToString (v : JsVal) : String :=
  match v with
  | .num q => jsNumToString q
  | .str s => s
  | .undef => "undefined"

/-- Substring test on character lists, modelling String.prototype.includes. -/
def containsSub (hay needle : List Char) : Bool :=
  match hay with
  | [] => needle.isEmpty
  | _ :: t => needle.isPrefixOf hay || containsSub t needle

/-- Test modelling s.includes(t) on Lean strings. -/
def jsIncludes (s t : String) : Bool :=
  containsSub s.data t.data

/-- Split of a character list at a separator character, modelling
String.prototype.split with a one-character separator. -/
def splitOnChar (sep : Char) (cs : List Char) : List (List Char) :=
  match cs with
  | [] => [[]]
  | c :: t =>
    let r := splitOnChar sep t
    if c = sep then [] :: r
    else
      match r with
      | [] => [[c]]
      | h :: t2 => (c :: h) :: t2

/-- Split of a string on the dash character, modelling
indexName.split("-") in the aggregator. -/
def jsSplitDash (s : String) : List String :=
  (splitOnChar '-' s.data).map List.asString

/-- Conversion Number(s) of a string, modelling the fallback numeric
parse in extractChartInfo (none models NaN). Only decimal integer
strings (with an optional leading minus) are parsed; the empty string is
0 as in JavaScript; all other strings are approximated as NaN. The
claims never exercise non-integer parses. -/
def jsStringToNumber (s : String) : Option ℚ :=
  if s = "" then some 0
  else
    let (neg, ds) := match s.data with
      | '-' :: t => (true, t)
      | l => (false, l)
    if ds ≠ [] ∧ ds.all (·.isDigit) then
      let n : ℕ := ds.foldl (fun acc c => 10 * acc + (c.toNat - '0'.toNat)) 0
      some (if neg then -(n : ℚ) else (n : ℚ))
    else none

/-- The seven values of the campaign-era VariableType union
(src/campaign/types.ts). -/
inductive VariableType where
  | numberOfBatches
  | documentsPerBatch
  | descriptionLength
  | indexType
  | numberOfUpdateBatches
  | documentsPerUpdateBatch
  | fuzziness
deriving DecidableEq, Repr

/-- Rendering of a VariableType in a template literal (its union-member
string). -/
def VariableType.name : VariableType → String
  | .numberOfBatches => "numberOfBatches"
  | .documentsPerBatch => "documentsPerBatch"
  | .descriptionLength => "descriptionLength"
  | .indexType => "indexType"
  | .numberOfUpdateBatches => "numberOfUpdateBatches"
  | .documentsPerUpdateBatch => "documentsPerUpdateBatch"
  | .fuzziness => "fuzziness"

/-- Update-batching parameters of a configuration. Numeric fields hold
JsVal because the source writes the swept value with a type assertion
(value as number), so a string sweep value would be stored verbatim. -/
structure UpdateConfig where
  numberOfUpdateBatches : JsVal
  documentsPerUpdateBatch : JsVal
deriving DecidableEq, Repr

/-- Full-text search parameters of a configuration. -/
structure FullTextSearch where
  fields : List String
  terms : List String
deriving DecidableEq, Repr

/-- Fuzzy-search parameters of a configuration. -/
structure FuzzySearch where
  field : String
  terms : List String
  fuzziness : JsVal
deriving DecidableEq, Repr

/-- Search-query parameters of a configuration. -/
structure SearchQueries where
  fullTextSearch : FullTextSearch
  fuzzySearch : FuzzySearch
deriving DecidableEq, Repr

/-- The campaign-era BenchmarkConfig (src/types, descriptionLength
revision), extended with the optional descriptionWordLength property
that persisted configurations of the later revision may carry and that
the aggregator reads (undef when absent). -/
structure Config where
  indexName : String
  indexType : JsVal
  chartName : Option String
  numberOfBatches : JsVal
  documentsPerBatch : JsVal
  descriptionLength : JsVal
  descriptionWordLength : JsVal
  updateConfig : UpdateConfig
  searchQueries : SearchQueries
  verbose : Bool
deriving DecidableEq, Repr

/-- Sweep descriptor (VariationParams of src/campaign/types.ts); the
field named variable in the source is varName here (variable is a Lean
keyword). -/
structure VariationParams where
  varName : VariableType
  min : ℚ
  max : ℚ
  increment : ℚ
  values : Option (List String)
deriving DecidableEq, Repr

/-- One iteration-by-iteration step of the loop in generateNumericValues
(for value = min; value <= max; value += increment), with fuel bounding
the number of iterations; none models fuel exhaustion, and at every fuel
when the loop diverges. -/
def genNumericLoop : ℕ → ℚ → ℚ → ℚ → Option (List ℚ)
  | 0, _, _, _ => none
  | fuel + 1, value, mx, inc =>
    if value ≤ mx then
      match genNumericLoop fuel (value + inc) mx inc with
      | some rest => some (value :: rest)
      | none => none
    else some []

/-- Model of generateNumericValues (persistence/utils.ts). The fuel
strictly exceeds the loop's iteration count whenever increment > 0, and
when the loop diverges (increment <= 0 with min <= max) genNumericLoop
is none at every fuel, so the overall Option is fuel-independent: some
is the list the loop returns, none means the loop does not terminate. -/
def generateNumericValues (min max increment : ℚ) : Option (List ℚ) :=
  genNumericLoop ((⌈(max - min) / increment⌉).toNat + 2) min max increment

/-- Model of generateIndexTypeValues (persistence/utils.ts). -/
def generateIndexTypeValues : List String :=
  ["standard", "ngram", "stemming"]

/-- Model of applyVariationToConfig in the latest revision of
persistence/utils.ts (scalar overwrite per variable, nested spread for
updateConfig and fuzziness, then the label rewrite
baseConfig.indexName + "-" + variable + "-" + suffix). The enum match is
exhaustive, so the unreachable default throw is not modelled. -/
def applyVariationToConfig (baseConfig : Config) (varName : VariableType)
    (value : JsVal) : Config :=
  let config : Config :=
    match varName with
    | .numberOfBatches => { baseConfig with numberOfBatches := value }
    | .documentsPerBatch => { baseConfig with documentsPerBatch := value }
    | .descriptionLength => { baseConfig with descriptionLength := value }
    | .indexType => { baseConfig with indexType := value }
    | .numberOfUpdateBatches =>
        { baseConfig with updateConfig :=
            { baseConfig.updateConfig with numberOfUpdateBatches := value } }
    | .documentsPerUpdateBatch =>
        { baseConfig with updateConfig :=
            { baseConfig.updateConfig with documentsPerUpdateBatch := value } }
    | .fuzziness =>
        { baseConfig with searchQueries :=
            { baseConfig.searchQueries with fuzzySearch :=
                { baseConfig.searchQueries.fuzzySearch with fuzziness := value } } }
  let suffix := jsValToString value
  { config with
      indexName := baseConfig.indexName ++ "-" ++ varName.name ++ "-" ++ suffix }

/-- Model of generateConfigurations (persistence/utils.ts): explicit
values win, then the indexType enumeration, then the numeric sweep; the
Option propagates only the numeric loop's potential divergence. -/
def generateConfigurations (baseConfig : Config) (variations : VariationParams) :
    Option (List Config) :=
  match variations.values with
  | some vs =>
      some (vs.map fun v => applyVariationToConfig baseConfig variations.varName (.str v))
  | none =>
      if variations.varName = .indexType then
        some (generateIndexTypeValues.map fun v =>
          applyVariationToConfig baseConfig .indexType (.str v))
      else
        (generateNumericValues variations.min variations.max variations.increment).map
          fun vals => vals.map fun v =>
            applyVariationToConfig baseConfig variations.varName (.num v)

/-- Model of getConfigValue (campaign runner): reads the swept field
back out of a configuration. -/
def getConfigValue (config : Config) (varName : VariableType) : JsVal :=
  match varName with
  | .numberOfBatches => config.numberOfBatches
  | .documentsPerBatch => config.documentsPerBatch
  | .descriptionLength => config.descriptionLength
  | .indexType => config.indexType
  | .numberOfUpdateBatches => config.updateConfig.numberOfUpdateBatches
  | .documentsPerUpdateBatch => config.updateConfig.documentsPerUpdateBatch
  | .fuzziness => config.searchQueries.fuzzySearch.fuzziness

/-- Campaign descriptor (CampaignConfig of src/campaign/types.ts). -/
structure CampaignConfig where
  baseConfig : Config
  variations : VariationParams
  repetitions : ℕ
deriving DecidableEq, Repr

/-- Outcome of one benchmarkRunner invocation: success carries the
resolved value (some s when that value is a string, which the loop
pushes into results), failure models a rejected promise caught by the
per-run try/catch. -/
inductive RunOutcome where
  | success (res : Option String)
  | failure
deriving DecidableEq, Repr

/-- The injected benchmark runner; the model indexes invocations by the
1-based repetition number so that distinct invocations on the same
configuration can succeed or fail independently. -/
def BenchmarkRunner : Type := Config → ℕ → RunOutcome

/-- Body of the repetition loop of executeConfiguration: await the
runner; on success count a completed run and push a string result; on a
caught rejection count a failed run and continue. -/
def runStep (config : Config) (runner : BenchmarkRunner)
    (st : ℕ × ℕ × List String) (rep : ℕ) : ℕ × ℕ × List String :=
  match runner config rep with
  | .success (some s) => (st.1 + 1, st.2.1, st.2.2 ++ [s])
  | .success none => (st.1 + 1, st.2.1, st.2.2)
  | .failure => (st.1, st.2.1 + 1, st.2.2)

/-- Model of executeConfiguration (campaign runner): run the repetition
loop for one configuration, starting from this configuration's zero
completed/failed tallies and appending string results to the shared
results list, counting a success or a failure for every repetition and
never aborting. -/
def executeConfiguration (config : Config) (repetitions : ℕ)
    (runner : BenchmarkRunner) (results : List String) : ℕ × ℕ × List String :=
  (List.range' 1 repetitions).foldl (runStep config runner) (0, 0, results)

/-- Campaign summary record (CampaignResult of src/campaign/types.ts;
campaignId, timestamp and executionTimeMs are wall-clock strings and
durations irrelevant to every claim and are omitted). -/
structure CampaignResult where
  totalRuns : ℕ
  completedRuns : ℕ
  failedRuns : ℕ
  configurations : List Config
  results : List String
deriving DecidableEq, Repr

/-- Body of the configuration-major loop of runCampaign: execute one
configuration's repetitions and add its tallies to the campaign's. The
loop body cannot throw (every run failure is caught inside
executeConfiguration), which the model reflects by being a total
function. -/
def campaignStep (repetitions : ℕ) (runner : BenchmarkRunner)
    (st : ℕ × ℕ × List String) (cfg : Config) : ℕ × ℕ × List String :=
  let r := executeConfiguration cfg repetitions runner st.2.2
  (st.1 + r.1, st.2.1 + r.2.1, r.2.2)

/-- Model of runCampaign's main loop over an already-generated
configuration list: totalRuns is computed up front as
configurations.length * repetitions and per-configuration tallies are
accumulated by campaignStep. -/
def runCampaignLoop (configurations : List Config) (repetitions : ℕ)
    (runner : BenchmarkRunner) : CampaignResult :=
  let totalRuns := configurations.length * repetitions
  let final := configurations.foldl (campaignStep repetitions runner) (0, 0, [])
  ⟨totalRuns, final.1, final.2.1, configurations, final.2.2⟩

/-- Model of runCampaign: generate the configuration space, then run the
campaign loop; none propagates only a diverging numeric sweep. -/
def runCampaign (campaign : CampaignConfig) (runner : BenchmarkRunner) :
    Option CampaignResult :=
  (generateConfigurations campaign.baseConfig campaign.variations).map
    fun cfgs => runCampaignLoop cfgs campaign.repetitions runner

/-- One field of the generated document structure (FieldDefinition of
generator/product-structure). -/
structure FieldDefinition where
  name : String
  wordCount : ℚ
deriving DecidableEq, Repr

/-- Field-count/word-count pair deriving a document structure
(ProductStructureConfig of generator/product-structure). Field counts
are whole numbers in every campaign, so they are naturals here. -/
structure ProductStructureConfig where
  additionalFields : ℕ
  totalWords : ℚ
deriving DecidableEq, Repr

/-- Modelled from the spec: generator/product-structure is code of this
repository that is not under src (only its callers and tests are).
Per the design spec and the module's tests, the structure derived from
additionalFields n and totalWords w is a name field followed by n
additional text fields sharing the w words, the single-field case being
the classic description field. The exact per-field word split and the
name field's own word count affect no claim (searchable-field extraction
only looks at non-name fields with a positive word count). -/
def generateProductStructure (c : ProductStructureConfig) : List FieldDefinition :=
  ⟨"name", 1⟩ :: (List.range c.additionalFields).map fun i =>
    ⟨if c.additionalFields = 1 then "description" else "field" ++ toString (i + 1),
     c.totalWords / (c.additionalFields : ℚ)⟩

/-- Modelled from the spec: validation of a ProductStructureConfig,
rejecting a field count exceeding the word count (the module's test
expects exactly this case to throw). -/
def validateProductStructureConfig (c : ProductStructureConfig) :
    Except String Unit :=
  if (c.additionalFields : ℚ) > c.totalWords then
    .error "additionalFields exceeds totalWords"
  else .ok ()

/-- Model of getSearchableFields (config/dynamic-index-configs.ts). -/
def getSearchableFields (productStructure : List FieldDefinition) : List String :=
  ((productStructure.filter fun f => f.name ≠ "name" ∧ f.wordCount > 0).map
    (fun f => f.name)) ++ ["name"]

/-- Access fields[0] || "name" of the source: the first searchable field
unless it is absent or the empty string (falsy), in which case "name". -/
def headFieldOr (l : List String) : String :=
  match l.head? with
  | some s => if s = "" then "name" else s
  | none => "name"

/-- The nine values of the product-structure-era VariableType union. -/
inductive LegacyVariableType where
  | numberOfBatches
  | documentsPerBatch
  | descriptionWordLength
  | additionalFields
  | totalWords
  | indexType
  | numberOfUpdateBatches
  | documentsPerUpdateBatch
  | fuzziness
deriving DecidableEq, Repr

/-- Rendering of a LegacyVariableType in a template literal. -/
def LegacyVariableType.name : LegacyVariableType → String
  | .numberOfBatches => "numberOfBatches"
  | .documentsPerBatch => "documentsPerBatch"
  | .descriptionWordLength => "descriptionWordLength"
  | .additionalFields => "additionalFields"
  | .totalWords => "totalWords"
  | .indexType => "indexType"
  | .numberOfUpdateBatches => "numberOfUpdateBatches"
  | .documentsPerUpdateBatch => "documentsPerUpdateBatch"
  | .fuzziness => "fuzziness"

/-- The product-structure-era BenchmarkConfig: as Config but with an
optional generated productStructure instead of descriptionLength. -/
structure LegacyConfig where
  indexName : String
  indexType : JsVal
  chartName : Option String
  productStructure : Option (List FieldDefinition)
  numberOfBatches : JsVal
  documentsPerBatch : JsVal
  updateConfig : UpdateConfig
  searchQueries : SearchQueries
  verbose : Bool
deriving DecidableEq, Repr

/-- Numeric reading of a sweep value where the source writes
value as number into arithmetic (composite-field recomputation); a
non-numeric value would make the source compute NaN garbage and is never
exercised, so it is read as 0 here. -/
def jsValToQ (v : JsVal) : ℚ :=
  match v with
  | .num q => q
  | _ => 0

/-- Whole-number reading of a sweep value used as a field count. -/
def jsValToCount (v : JsVal) : ℕ :=
  match v with
  | .num q => q.num.toNat
  | _ => 0

/-- Model of applyVariationToConfig in the product-structure revision of
persistence/utils.ts. The source copies the base with a shallow spread,
so the copy's searchQueries still aliases the base's; the
descriptionWordLength and additionalFields branches then assign through
that alias (config.searchQueries.fullTextSearch.fields = ...,
config.searchQueries.fuzzySearch.field = ...), mutating the base
configuration. The model makes the aliasing explicit by returning both
the constructed configuration and the post-call state of the base
object; error is a thrown ValidationError of the composite recompute. -/
def applyVariationToConfigLegacy (baseConfig : LegacyConfig)
    (varName : LegacyVariableType) (value : JsVal) :
    Except String (LegacyConfig × LegacyConfig) := do
  let (config, baseAfter) ←
    match varName with
    | .numberOfBatches =>
        pure ({ baseConfig with numberOfBatches := value }, baseConfig)
    | .documentsPerBatch =>
        pure ({ baseConfig with documentsPerBatch := value }, baseConfig)
    | .descriptionWordLength =>
        let newLegacyStructure := generateProductStructure
          { additionalFields := 1, totalWords := jsValToQ value }
        let legacySearchableFields := getSearchableFields newLegacyStructure
        let mutatedQueries : SearchQueries :=
          { baseConfig.searchQueries with
              fullTextSearch :=
                { baseConfig.searchQueries.fullTextSearch with
                    fields := legacySearchableFields }
              fuzzySearch :=
                { baseConfig.searchQueries.fuzzySearch with
                    field := headFieldOr legacySearchableFields } }
        pure
          ({ baseConfig with
               productStructure := some newLegacyStructure
               searchQueries := mutatedQueries },
           { baseConfig with searchQueries := mutatedQueries })
    | .additionalFields =>
        let currentTotalWords : ℚ :=
          match baseConfig.productStructure with
          | some structure0 => (structure0.map (fun f => f.wordCount)).sum
          | none => 10
        let newStructureConfig : ProductStructureConfig :=
          { additionalFields := jsValToCount value, totalWords := currentTotalWords }
        match validateProductStructureConfig newStructureConfig with
        | .error e => throw e
        | .ok _ =>
          let newStructure := generateProductStructure newStructureConfig
          let newSearchableFields := getSearchableFields newStructure
          let mutatedQueries : SearchQueries :=
            { baseConfig.searchQueries with
                fullTextSearch :=
                  { baseConfig.searchQueries.fullTextSearch with
                      fields := newSearchableFields }
                fuzzySearch :=
                  { baseConfig.searchQueries.fuzzySearch with
                      field := headFieldOr newSearchableFields } }
          pure
            ({ baseConfig with
                 productStructure := some newStructure
                 searchQueries := mutatedQueries },
             { baseConfig with searchQueries := mutatedQueries })
    | .totalWords =>
        let currentAdditionalFields : ℕ :=
          match baseConfig.productStructure with
          | some structure0 => (structure0.filter fun f => f.name ≠ "name").length
          | none => 1
        let newWordStructureConfig : ProductStructureConfig :=
          { additionalFields := currentAdditionalFields,
            totalWords := jsValToQ value }
        match validateProductStructureConfig newWordStructureConfig with
        | .error e => throw e
        | .ok _ =>
          pure
            ({ baseConfig with
                 productStructure := some (generateProductStructure newWordStructureConfig) },
             baseConfig)
    | .indexType =>
        pure ({ baseConfig with indexType := value }, baseConfig)
    | .numberOfUpdateBatches =>
        pure
          ({ baseConfig with updateConfig :=
               { baseConfig.updateConfig with numberOfUpdateBatches := value } },
           baseConfig)
    | .documentsPerUpdateBatch =>
        pure
          ({ baseConfig with updateConfig :=
               { baseConfig.updateConfig with documentsPerUpdateBatch := value } },
           baseConfig)
    | .fuzziness =>
        pure
          ({ baseConfig with searchQueries :=
               { baseConfig.searchQueries with fuzzySearch :=
                   { baseConfig.searchQueries.fuzzySearch with fuzziness := value } } },
           baseConfig)
  let suffix := jsValToString value
  pure
    ({ config with
         indexName := baseConfig.indexName ++ "-" ++ varName.name ++ "-" ++ suffix },
     baseAfter)

/-- Sequential application of the legacy transform over the sweep
values, threading the (possibly mutated) base object exactly as the
source's map over the shared baseConfig does. -/
def applyAllLegacy (baseConfig : LegacyConfig) (varName : LegacyVariableType) :
    List JsVal → Except String (List LegacyConfig × LegacyConfig)
  | [] => .ok ([], baseConfig)
  | v :: t => do
    let (cfg, base1) ← applyVariationToConfigLegacy baseConfig varName v
    let (rest, base2) ← applyAllLegacy base1 varName t
    .ok (cfg :: rest, base2)

/-- Sweep descriptor of the product-structure era. -/
structure LegacyVariationParams where
  varName : LegacyVariableType
  min : ℚ
  max : ℚ
  increment : ℚ
  values : Option (List String)
deriving DecidableEq, Repr

/-- Model of generateConfigurations in the product-structure revision:
same value selection as the current revision, threading the shared base
object through the per-value transform; the outer Option is the numeric
loop's potential divergence, the Except a thrown ValidationError. -/
def generateConfigurationsLegacy (baseConfig : LegacyConfig)
    (variations : LegacyVariationParams) :
    Option (Except String (List LegacyConfig × LegacyConfig)) :=
  match variations.values with
  | some vs => some (applyAllLegacy baseConfig variations.varName (vs.map .str))
  | none =>
      if variations.varName = .indexType then
        some (applyAllLegacy baseConfig .indexType (generateIndexTypeValues.map .str))
      else
        (generateNumericValues variations.min variations.max variations.increment).map
          fun vals => applyAllLegacy baseConfig variations.varName (vals.map .num)

/-- Indexing metric group of a persisted result (only the field the
aggregator reads). -/
structure IndexingMetricsR where
  totalIndexingTimeMs : ℚ
deriving DecidableEq, Repr

/-- Update metric group of a persisted result (only the field the
aggregator reads). -/
structure UpdateMetricsR where
  totalUpdateTimeMs : ℚ
deriving DecidableEq, Repr

/-- One raw search timing sample of a persisted result. -/
structure SearchEntry where
  searchTimeMs : ℚ
deriving DecidableEq, Repr

/-- Search metric group of a persisted result; results are dynamically
shaped JSON, so the pre-aggregated means and the raw sample arrays may
each be absent (undefined). -/
structure SearchMetricsR where
  averageFullTextSearchTimeMs : Option ℚ
  averageFuzzySearchTimeMs : Option ℚ
  fullTextSearchResults : Option (List SearchEntry)
  fuzzySearchResults : Option (List SearchEntry)
deriving DecidableEq, Repr

/-- A persisted per-run result as the aggregator consumes it
(BenchmarkResult of src/types, restricted to the fields the
StreamProcessor reads). -/
structure BenchmarkResult where
  timestamp : String
  config : Config
  indexingMetrics : IndexingMetricsR
  updateMetrics : UpdateMetricsR
  searchMetrics : SearchMetricsR
  totalTestDurationMs : ℚ
deriving DecidableEq, Repr

/-- Extraction triple of one result file: dataset name, swept variable
name, swept value. -/
structure ChartInfo where
  chartName : String
  varName : String
  value : JsVal
deriving DecidableEq, Repr

/-- Model of StreamProcessor.extractChartInfo: refuse files whose
configuration carries no dataset-name tag (a falsy chartName, i.e.
absent or empty), then recover the swept variable from the label's
"-field-" pattern and read the typed value from the configuration's own
field; otherwise fall back to a positional split of the label, parsing
the fourth segment as a number when possible, and refuse labels of
fewer than four segments. -/
def extractChartInfo (result : BenchmarkResult) : Option ChartInfo :=
  let config := result.config
  match config.chartName with
  | none => none
  | some chartName =>
    if chartName = "" then none
    else
      let indexName := config.indexName
      if jsIncludes indexName "-indexType-" then
        some ⟨chartName, "indexType", config.indexType⟩
      else if jsIncludes indexName "-documentsPerBatch-" then
        some ⟨chartName, "documentsPerBatch", config.documentsPerBatch⟩
      else if jsIncludes indexName "-numberOfBatches-" then
        some ⟨chartName, "numberOfBatches", config.numberOfBatches⟩
      else if jsIncludes indexName "-descriptionWordLength-" then
        some ⟨chartName, "descriptionWordLength", config.descriptionWordLength⟩
      else if jsIncludes indexName "-numberOfUpdateBatches-" then
        some ⟨chartName, "numberOfUpdateBatches", config.updateConfig.numberOfUpdateBatches⟩
      else if jsIncludes indexName "-documentsPerUpdateBatch-" then
        some ⟨chartName, "documentsPerUpdateBatch", config.updateConfig.documentsPerUpdateBatch⟩
      else
        let parts := jsSplitDash indexName
        if parts.length < 4 then none
        else
          let varName := parts.getD 2 ""
          let raw := parts.getD 3 ""
          match jsStringToNumber raw with
          | some q => some ⟨chartName, varName, .num q⟩
          | none => some ⟨chartName, varName, .str raw⟩

/-- Model of StreamProcessor.calculateSearchAverage: the mean of the two
pre-aggregated search-mode means when both are present, otherwise the
mean over all raw per-term samples of whichever modes are present, and 0
when there are none. -/
def calculateSearchAverage (result : BenchmarkResult) : ℚ :=
  let searchMetrics := result.searchMetrics
  match searchMetrics.averageFullTextSearchTimeMs,
        searchMetrics.averageFuzzySearchTimeMs with
  | some a, some b => (a + b) / 2
  | _, _ =>
    let fullList := match searchMetrics.fullTextSearchResults with
      | some l => l
      | none => []
    let fuzzyList := match searchMetrics.fuzzySearchResults with
      | some l => l
      | none => []
    let totalSearchTime :=
      (fullList.map (fun e => e.searchTimeMs)).sum +
      (fuzzyList.map (fun e => e.searchTimeMs)).sum
    let totalSearchCount := fullList.length + fuzzyList.length
    if totalSearchCount > 0 then totalSearchTime / (totalSearchCount : ℚ) else 0

/-- Accumulated raw samples of one swept value (DataPoint of the
StreamProcessor); the field named variable in the source is varValue
here. -/
structure DataPoint where
  varValue : JsVal
  indexingTimeMs : List ℚ
  searchTimeMs : List ℚ
  updateTimeMs : List ℚ
  totalDurationMs : List ℚ
  timestamps : List String
deriving DecidableEq, Repr

/-- One dataset of the aggregation (ChartAggregation of the
StreamProcessor): insertion-ordered map from swept value to its sample
arrays, modelling a JavaScript Map as an association list. -/
structure ChartAggregation where
  chartName : String
  varName : String
  dataPoints : List (JsVal × DataPoint)
deriving DecidableEq, Repr

/-- Lookup in an insertion-ordered association list (Map.prototype.get). -/
def alFind {κ ν : Type} [DecidableEq κ] (m : List (κ × ν)) (k : κ) : Option ν :=
  (m.find? fun p => p.1 = k).map fun p => p.2

/-- Append a fresh entry unless the key is present (the source's
if (!map.has(k)) map.set(k, v) idiom; Map.set appends new keys in
insertion order). -/
def alAppendIfAbsent {κ ν : Type} [DecidableEq κ] (m : List (κ × ν)) (k : κ)
    (v : ν) : List (κ × ν) :=
  if m.any (fun p => p.1 = k) then m else m ++ [(k, v)]

/-- In-place update of the first entry of a key, preserving insertion
order (mutation of the object a Map.get returned). -/
def alModify {κ ν : Type} [DecidableEq κ] (m : List (κ × ν)) (k : κ)
    (f : ν → ν) : List (κ × ν) :=
  match m with
  | [] => []
  | (k0, v) :: t => if k0 = k then (k0, f v) :: t else (k0, v) :: alModify t k f

/-- Push of one result's four metric samples and timestamp into a data
point (the map-reduce step of updateAggregation; the search figure is
calculateSearchAverage's). -/
def pushSamples (result : BenchmarkResult) (dp : DataPoint) : DataPoint :=
  { dp with
      indexingTimeMs := dp.indexingTimeMs ++ [result.indexingMetrics.totalIndexingTimeMs]
      searchTimeMs := dp.searchTimeMs ++ [calculateSearchAverage result]
      updateTimeMs := dp.updateTimeMs ++ [result.updateMetrics.totalUpdateTimeMs]
      totalDurationMs := dp.totalDurationMs ++ [result.totalTestDurationMs]
      timestamps := dp.timestamps ++ [result.timestamp] }

/-- Model of StreamProcessor.updateAggregation: create the dataset entry
for a new chart name (its variable is the first extraction's, later
extractions never overwrite it), create the data point for a new swept
value, then push the four metric samples and the timestamp. -/
def updateAggregation (aggregations : List (String × ChartAggregation))
    (info : ChartInfo) (result : BenchmarkResult) :
    List (String × ChartAggregation) :=
  let aggregations := alAppendIfAbsent aggregations info.chartName
    ⟨info.chartName, info.varName, []⟩
  alModify aggregations info.chartName fun aggregation =>
    let dataPoints := alAppendIfAbsent aggregation.dataPoints info.value
      ⟨info.value, [], [], [], [], []⟩
    { aggregation with dataPoints := alModify dataPoints info.value (pushSamples result) }

/-- Mutable state of one StreamProcessor pass: the accumulation map and
the processed-file counter. -/
structure ProcState where
  aggregations : List (String × ChartAggregation)
  processedFiles : ℕ
deriving DecidableEq, Repr

/-- Model of StreamProcessor.processFile on one already-read file: none
models a file whose read or JSON parse threw (the catch logs and leaves
all state untouched); a parsed result with no extractable chart info
only advances the processed counter; otherwise the sample is
accumulated and the counter advances. -/
def processFile (state : ProcState) (file : Option BenchmarkResult) : ProcState :=
  match file with
  | none => state
  | some result =>
    let state' :=
      match extractChartInfo result with
      | some info =>
          { state with aggregations := updateAggregation state.aggregations info result }
      | none => state
    { state' with processedFiles := state'.processedFiles + 1 }

/-- Model of StreamProcessor.chunkArray: fixed-size slices of the file
list. A chunk size of 0 would make the source's index loop spin forever;
it is unreachable (the parallelism ceiling is at least 1) and modelled
as no chunks. -/
def chunkArray {α : Type} (xs : List α) (n : ℕ) : List (List α) :=
  match xs, n with
  | [], _ => []
  | _ :: _, 0 => []
  | x :: t, n + 1 => (x :: t).take (n + 1) :: chunkArray (t.drop n) (n + 1)
termination_by xs.length
decreasing_by
  simp only [List.length_drop, List.length_cons]
  omega

/-- Model of StreamProcessor.processFilesInParallel: chunks are awaited
sequentially; within a chunk the per-file updates land in completion
order, which the model fixes to file order (see the header notes). -/
def processFilesInParallel (maxParallel : ℕ)
    (files : List (Option BenchmarkResult)) (state : ProcState) : ProcState :=
  (chunkArray files maxParallel).foldl
    (fun st chunk => chunk.foldl processFile st) state

/-- One dataset as persisted in the cache file: JSON serialization via
Object.fromEntries turns the data-point map's keys into strings. -/
structure CachedAggregation where
  chartName : String
  varName : String
  dataPoints : List (String × DataPoint)
deriving DecidableEq, Repr

/-- The cache file: the result directory's modification time recorded at
save time plus the serialized datasets (metadata counters omitted; no
claim reads them). -/
structure CacheFile where
  resultsLastModified : ℤ
  aggregations : List (String × CachedAggregation)
deriving DecidableEq, Repr

/-- Serialization of the aggregation map for saveToCache: data-point
keys are stringified by Object.fromEntries; the values round-trip
losslessly (numbers are exact in this model; a key collision after
stringification would drop an entry and is not modelled — no campaign
produces one). -/
def serializeAggregations (aggregations : List (String × ChartAggregation)) :
    List (String × CachedAggregation) :=
  aggregations.map fun p =>
    (p.1, ⟨p.2.chartName, p.2.varName,
           p.2.dataPoints.map fun q => (jsValToString q.1, q.2)⟩)

/-- Reconstruction of the aggregation map in loadFromCache: new Map of
Object.entries leaves every data-point key a string. -/
def deserializeAggregations (cached : List (String × CachedAggregation)) :
    List (String × ChartAggregation) :=
  cached.map fun p =>
    (p.1, ⟨p.2.chartName, p.2.varName,
           p.2.dataPoints.map fun q => (JsVal.str q.1, q.2)⟩)

/-- External state of one aggregation pass: the parse outcome of each
result file of the directory, in directory order; the directory's
modification time; and the side cache file (in a different directory,
so writing it leaves dirMtime unchanged). -/
structure FsState where
  resultFiles : List (Option BenchmarkResult)
  dirMtime : ℤ
  cacheFile : Option CacheFile
deriving DecidableEq, Repr

/-- Options of the StreamProcessor (verbose only controls logging and is
omitted). -/
structure ProcessorOptions where
  maxParallel : ℕ := 6
  enableCache : Bool := true
deriving DecidableEq, Repr

/-- Model of StreamProcessor.isCacheValid: the cache file exists, reads
back, and its stored timestamp is at least the result directory's
modification time. -/
def isCacheValid (fs : FsState) : Bool :=
  match fs.cacheFile with
  | none => false
  | some c => fs.dirMtime ≤ c.resultsLastModified

/-- Outcome of one processAllResults call: the returned map, the
file-system state after the call, and how many result files the call
read. -/
structure AggregationRun where
  aggregations : List (String × ChartAggregation)
  fsAfter : FsState
  filesRead : ℕ
deriving DecidableEq, Repr

/-- Model of StreamProcessor.processAllResults: on a valid cache return
the reconstructed map with no file read; otherwise read and reduce every
result file, then overwrite the cache with the directory's modification
time and the serialized map. -/
def processAllResults (opts : ProcessorOptions) (fs : FsState) : AggregationRun :=
  if opts.enableCache && isCacheValid fs then
    match fs.cacheFile with
    | some c => ⟨deserializeAggregations c.aggregations, fs, 0⟩
    | none => ⟨[], fs, 0⟩
  else
    let final := processFilesInParallel opts.maxParallel fs.resultFiles ⟨[], 0⟩
    let fsAfter :=
      if opts.enableCache then
        { fs with cacheFile := some (CacheFile.mk fs.dirMtime (serializeAggregations final.aggregations)) }
      else fs
    ⟨final.aggregations, fsAfter, fs.resultFiles.length⟩

/-- Model of parseFloat(x.toFixed(2)): the nearest hundredth, ties
toward the larger value (the ES toFixed rule). -/
def toFixed2 (x : ℚ) : ℚ :=
  (⌊100 * x + 1 / 2⌋ : ℚ) / 100

/-- Model of parseFloat(Math.sqrt(v).toFixed(2)) for the nonnegative
variance v: with v = n / d in lowest terms, 100·sqrt(v) equals
sqrt(40000·n·d) / d, so the toFixed rounding
floor(100·sqrt(v) + 1/2) equals
floor((floor(sqrt(40000·n·d)) + d) / (2·d)), and the inner floor of a
square root of a natural is Nat.sqrt. -/
def sqrtToFixed2 (v : ℚ) : ℚ :=
  (((Nat.sqrt (40000 * v.num.toNat * v.den) + v.den) / (2 * v.den) : ℕ) : ℚ) / 100

/-- Descriptive statistics of one sample series (the return shape of
StreamProcessor.calculateStats). -/
structure Stats where
  mean : ℚ
  median : ℚ
  min : ℚ
  max : ℚ
  std : ℚ
  count : ℕ
deriving DecidableEq, Repr

/-- Model of StreamProcessor.calculateStats: all-zero on an empty
series; otherwise mean, median (average of the two middle values of a
sorted copy for even length), min and max from the sorted copy,
population standard deviation, with mean, median and std passed through
toFixed(2). The sorted copy of values.sort((a, b) => a - b) is modelled
by insertion sort (the sort algorithm is unspecified in JavaScript;
only the sorted order matters). -/
def calculateStats (values : List ℚ) : Stats :=
  if values.length = 0 then ⟨0, 0, 0, 0, 0, 0⟩
  else
    let sorted := values.insertionSort (· ≤ ·)
    let mean := values.foldl (· + ·) 0 / (values.length : ℚ)
    let median :=
      if sorted.length % 2 = 0 then
        (sorted.getD (sorted.length / 2 - 1) 0 + sorted.getD (sorted.length / 2) 0) / 2
      else sorted.getD (sorted.length / 2) 0
    let variance :=
      values.foldl (fun acc val => acc + (val - mean) ^ 2) 0 / (values.length : ℚ)
    ⟨toFixed2 mean, toFixed2 median, sorted.getD 0 0,
     sorted.getD (sorted.length - 1) 0, sqrtToFixed2 variance, values.length⟩

/-- Per-metric statistics of one chart point. -/
structure MetricStats where
  indexing : Stats
  search : Stats
  update : Stats
  total : Stats
deriving DecidableEq, Repr

/-- One aggregated chart point (the field named variable in the source
is varValue here). -/
structure ChartPoint where
  varValue : JsVal
  stats : MetricStats
deriving DecidableEq, Repr

/-- The verbatim sample arrays of one chart point, for scatter
overlays. -/
structure RawValues where
  indexing : List ℚ
  search : List ℚ
  update : List ℚ
  total : List ℚ
deriving DecidableEq, Repr

/-- One raw chart point. -/
structure RawPoint where
  varValue : JsVal
  rawValues : RawValues
deriving DecidableEq, Repr

/-- The chart-ready dataset the assembler produces (ChartData of the
StreamProcessor-era loader). -/
structure ChartData where
  chartName : String
  varName : String
  dataPoints : List ChartPoint
  rawDataPoints : List RawPoint
deriving DecidableEq, Repr

/-- The assembler's per-dataset conversion (shared body of loadChartData
and loadChartDataByName): one stats point and one raw point per
accumulated value, in the accumulation map's own order. -/
def chartDataOfAggregation (chartName : String)
    (aggregation : ChartAggregation) : ChartData :=
  { chartName := chartName
    varName := aggregation.varName
    dataPoints := aggregation.dataPoints.map fun q =>
      ⟨q.2.varValue,
       ⟨calculateStats q.2.indexingTimeMs, calculateStats q.2.searchTimeMs,
        calculateStats q.2.updateTimeMs, calculateStats q.2.totalDurationMs⟩⟩
    rawDataPoints := aggregation.dataPoints.map fun q =>
      ⟨q.2.varValue,
       ⟨q.2.indexingTimeMs, q.2.searchTimeMs, q.2.updateTimeMs, q.2.totalDurationMs⟩⟩ }

/-- Model of loadChartData: run the aggregator over the result
directory, then assemble one ChartData per dataset, in map order. -/
def loadChartData (fs : FsState) : List ChartData × FsState :=
  let run := processAllResults {} fs
  (run.aggregations.map fun p => chartDataOfAggregation p.1 p.2, run.fsAfter)

/-- Model of loadChartDataByName: as loadChartData but a Map.get of the
requested dataset, null when absent. -/
def loadChartDataByName (chartName : String) (fs : FsState) :
    Option ChartData × FsState :=
  let run := processAllResults {} fs
  ((alFind run.aggregations chartName).map (chartDataOfAggregation chartName),
   run.fsAfter)

/-- Sort key of the chart-side value comparator (createIndexingTimeChart
and its siblings): numeric when the stringified value parses as a
number, the string itself otherwise. -/
def chartSortKey (v : JsVal) : ℚ ⊕ String :=
  match v with
  | .num q => .inl q
  | .str s =>
    match jsStringToNumber s with
    | some q => .inl q
    | none => .inr s
  | .undef => .inr "undefined"

/-- The claimed ascending order on swept values: numeric compare when
both parse as numbers, lexicographic compare of the rendered strings
otherwise. -/
def valueLE (a b : JsVal) : Bool :=
  match chartSortKey a, chartSortKey b with
  | .inl x, .inl y => x ≤ y
  | _, _ => jsValToString a ≤ jsValToString b

/-- A value list sorted ascending per the claimed order (applied to the
varValue fields of a chart's points). -/
def valuesSortedAsc (l : List JsVal) : Prop :=
  l.Chain' fun a b => valueLE a b = true

/-- Order-preserving deduplication: the list of first occurrences. -/
def addFirstOccurrence (acc : List JsVal) (v : JsVal) : List JsVal :=
  if v ∈ acc then acc else acc ++ [v]

/-- First-occurrence order of a value list. -/
def firstOccurrences (l : List JsVal) : List JsVal :=
  l.foldl addFirstOccurrence []

/-- The swept values a given dataset receives from a file list, in
processing order (parse failures and extraction refusals contribute
nothing). -/
def extractedValuesFor (chart : String)
    (files : List (Option BenchmarkResult)) : List JsVal :=
  files.filterMap fun f =>
    match f with
    | none => none
    | some r =>
      match extractChartInfo r with
      | some info => if info.chartName = chart then some info.value else none
      | none => none

/-- Number of iterations the numeric sweep loop performs from a current
value (an analysis artifact used to characterize genNumericLoop). -/
def iterCount (value mx inc : ℚ) : ℕ :=
  if value ≤ mx then (⌊(mx - value) / inc⌋ + 1).toNat else 0

/-- A concrete base configuration with base label x, shaped as
createBaseConfig produces it; used by witnesses and counterexamples. -/
def baseConfig0 : Config where
  indexName := "x"
  indexType := .str "standard"
  chartName := some "Batch Size Scaling"
  numberOfBatches := .num 10
  documentsPerBatch := .num 100
  descriptionLength := .num 1
  descriptionWordLength := .undef
  updateConfig := ⟨.num 5, .num 50⟩
  searchQueries := ⟨⟨["name", "description"], ["product"]⟩, ⟨"name", ["produc"], .str "AUTO"⟩⟩
  verbose := false

/-- A concrete persisted result around a given configuration, with both
pre-aggregated search means present. -/
def sampleResult (config : Config) (ixMs upMs totMs : ℚ) : BenchmarkResult :=
  ⟨"2025-01-01T00:00:00.000Z", config, ⟨ixMs⟩, ⟨upMs⟩,
   ⟨some 4, some 6, none, none⟩, totMs⟩

/-- A result directory holding one well-formed result file for swept
value 500, no cache. -/
def fsOneFile : FsState :=
  ⟨[some (sampleResult (applyVariationToConfig baseConfig0 .documentsPerBatch (.num 500)) 20 30 60)],
   0, none⟩

/-- A result directory holding two well-formed result files whose swept
values arrive in the order 700 then 500, no cache. -/
def fsTwoFiles : FsState :=
  ⟨[some (sampleResult (applyVariationToConfig baseConfig0 .documentsPerBatch (.num 700)) 20 30 60),
    some (sampleResult (applyVariationToConfig baseConfig0 .documentsPerBatch (.num 500)) 10 15 25)],
   0, none⟩

/-- A result directory where the first file is unreadable or malformed
(its parse throws) and the second is the well-formed 500 file. -/
def fsWithBadFile : FsState :=
  ⟨[none,
    some (sampleResult (applyVariationToConfig baseConfig0 .documentsPerBatch (.num 500)) 20 30 60)],
   0, none⟩

/-- A parsed result whose embedded configuration carries no dataset-name
tag. -/
def resultNoChartName : BenchmarkResult :=
  sampleResult { baseConfig0 with chartName := none } 20 30 60

/-- A concrete product-structure-era base configuration with base label
x and an existing one-additional-field structure. -/
def legacyBase0 : LegacyConfig where
  indexName := "x"
  indexType := .str "standard"
  chartName := some "Content Length Scaling (in words)"
  productStructure := some [⟨"name", 1⟩, ⟨"description", 10⟩]
  numberOfBatches := .num 10
  documentsPerBatch := .num 100
  updateConfig := ⟨.num 5, .num 50⟩
  searchQueries := ⟨⟨["name", "description"], ["product"]⟩, ⟨"name", ["produc"], .str "AUTO"⟩⟩
  verbose := false

/-- Keys of a chart's data-point map, as an Option distinguishing an
absent chart (an analysis artifact for the accumulation invariants). -/
def dpKeysO (aggregations : List (String × ChartAggregation)) (chart : String) :
    Option (List JsVal) :=
  (alFind aggregations chart).map fun agg => agg.dataPoints.map (·.1)

/-- Stored varValue fields of a chart's data points, as an Option
distinguishing an absent chart. -/
def dpValuesO (aggregations : List (String × ChartAggregation)) (chart : String) :
    Option (List JsVal) :=
  (alFind aggregations chart).map fun agg => agg.dataPoints.map fun q => q.2.varValue

/-- One accumulation step of the key list seen by a chart: create the
chart on first contact, then record the value's first occurrence. -/
def stepFO (o : Option (List JsVal)) (v : JsVal) : Option (List JsVal) :=
  some (addFirstOccurrence (o.getD []) v)

/-!
Theorems. Small supporting lemmas come first, then one theorem per
claim (with its witness or counterexample where applicable).
-/

theorem runStep_tally (config : Config) (runner : BenchmarkRunner)
    (st : ℕ × ℕ × List String) (rep : ℕ) :
    (runStep config runner st rep).1 + (runStep config runner st rep).2.1 =
      st.1 + st.2.1 + 1 := by
  unfold runStep
  rcases h : runner config rep with res | _
  · rcases res with _ | s <;> simp <;> omega
  · simp; omega

theorem foldl_runStep_tally (config : Config) (runner : BenchmarkRunner) :
    ∀ (l : List ℕ) (st : ℕ × ℕ × List String),
      (l.foldl (runStep config runner) st).1 +
        (l.foldl (runStep config runner) st).2.1 = st.1 + st.2.1 + l.length := by
  intro l
  induction l with
  | nil => intro st; simp
  | cons a t ih =>
    intro st
    simp only [List.foldl_cons, List.length_cons]
    rw [ih]
    have := runStep_tally config runner st a
    omega

theorem executeConfiguration_tally (config : Config) (repetitions : ℕ)
    (runner : BenchmarkRunner) (results : List String) :
    (executeConfiguration config repetitions runner results).1 +
      (executeConfiguration config repetitions runner results).2.1 = repetitions := by
  unfold executeConfiguration
  rw [foldl_runStep_tally]
  simp

theorem foldl_campaignStep_tally (repetitions : ℕ) (runner : BenchmarkRunner) :
    ∀ (cfgs : List Config) (st : ℕ × ℕ × List String),
      (cfgs.foldl (campaignStep repetitions runner) st).1 +
        (cfgs.foldl (campaignStep repetitions runner) st).2.1 =
        st.1 + st.2.1 + cfgs.length * repetitions := by
  intro cfgs
  induction cfgs with
  | nil => intro st; simp
  | cons cfg t ih =>
    intro st
    simp only [List.foldl_cons, List.length_cons]
    rw [ih]
    have h := executeConfiguration_tally cfg repetitions runner st.2.2
    simp only [campaignStep]
    ring_nf
    omega

/-- C2: for every configuration list, repetition count and run function
(each invocation succeeding or failing arbitrarily), the campaign loop
returns normally — it is a total function because every run failure is
caught inside executeConfiguration — with totalRuns equal to
configurations times repetitions and completedRuns + failedRuns equal to
totalRuns. -/
theorem runCampaign_partial_failure_tally (configurations : List Config)
    (repetitions : ℕ) (runner : BenchmarkRunner) :
    (runCampaignLoop configurations repetitions runner).totalRuns =
      configurations.length * repetitions ∧
    (runCampaignLoop configurations repetitions runner).completedRuns +
      (runCampaignLoop configurations repetitions runner).failedRuns =
      (runCampaignLoop configurations repetitions runner).totalRuns := by
  refine ⟨rfl, ?_⟩
  show (configurations.foldl (campaignStep repetitions runner) (0, 0, [])).1 +
      (configurations.foldl (campaignStep repetitions runner) (0, 0, [])).2.1 = _
  rw [foldl_campaignStep_tally]
  simp [runCampaignLoop]

theorem iterCount_step (v mx inc : ℚ) (hinc : 0 < inc) (hv : v ≤ mx) :
    iterCount v mx inc = iterCount (v + inc) mx inc + 1 := by
  rcases le_or_lt (v + inc) mx with h2 | h2
  · rw [iterCount, if_pos hv, iterCount, if_pos h2]
    have key : ⌊(mx - (v + inc)) / inc⌋ = ⌊(mx - v) / inc⌋ - 1 := by
      have harith : (mx - (v + inc)) / inc = (mx - v) / inc - 1 := by
        field_simp
        ring
      rw [harith, Int.floor_sub_one]
    have h1 : (1 : ℤ) ≤ ⌊(mx - v) / inc⌋ := by
      rw [Int.le_floor]
      push_cast
      rw [le_div_iff₀ hinc]
      linarith
    omega
  · rw [iterCount, if_pos hv, iterCount, if_neg (not_le.2 h2)]
    have h0 : ⌊(mx - v) / inc⌋ = 0 := by
      have hlo : 0 ≤ (mx - v) / inc := div_nonneg (by linarith) hinc.le
      have hhi : (mx - v) / inc < 1 := (div_lt_one hinc).2 (by linarith)
      rw [Int.floor_eq_zero_iff]
      exact ⟨hlo, hhi⟩
    omega

theorem genNumericLoop_eq (n : ℕ) :
    ∀ (fuel : ℕ) (v mx inc : ℚ), 0 < inc → iterCount v mx inc = n →
      n + 1 ≤ fuel →
      genNumericLoop fuel v mx inc =
        some ((List.range n).map fun (k : ℕ) => v + (k : ℚ) * inc) := by
  induction n with
  | zero =>
    intro fuel v mx inc hinc hcount hfuel
    obtain ⟨f, rfl⟩ : ∃ f, fuel = f + 1 := ⟨fuel - 1, by omega⟩
    have hv : ¬ v ≤ mx := by
      intro hle
      rw [iterCount, if_pos hle] at hcount
      have h0 : (0 : ℤ) ≤ ⌊(mx - v) / inc⌋ :=
        Int.floor_nonneg.2 (div_nonneg (by linarith) hinc.le)
      omega
    simp [genNumericLoop, hv]
  | succ n ih =>
    intro fuel v mx inc hinc hcount hfuel
    obtain ⟨f, rfl⟩ : ∃ f, fuel = f + 1 := ⟨fuel - 1, by omega⟩
    have hv : v ≤ mx := by
      by_contra hno
      rw [iterCount, if_neg hno] at hcount
      omega
    have hstep : iterCount (v + inc) mx inc = n := by
      have := iterCount_step v mx inc hinc hv
      omega
    have hrec := ih f (v + inc) mx inc hinc hstep (by omega)
    simp only [genNumericLoop, if_pos hv, hrec]
    congr 1
    rw [List.range_succ_eq_map]
    simp only [List.map_cons, List.map_map, Nat.cast_zero, zero_mul, add_zero,
      List.cons.injEq, true_and]
    apply List.map_congr_left
    intro k _
    simp only [Function.comp_apply, Nat.succ_eq_add_one]
    push_cast
    ring

theorem genNumericLoop_divergent (inc : ℚ) (hinc : inc ≤ 0) :
    ∀ (fuel : ℕ) (v mx : ℚ), v ≤ mx → genNumericLoop fuel v mx inc = none := by
  intro fuel
  induction fuel with
  | zero => intro v mx _; rfl
  | succ f ih =>
    intro v mx hv
    have h2 : v + inc ≤ mx := by linarith
    simp [genNumericLoop, hv, ih (v + inc) mx h2]

theorem generateNumericValues_eq (mn mx inc : ℚ) (hinc : 0 < inc) :
    generateNumericValues mn mx inc =
      some ((List.range (iterCount mn mx inc)).map fun (k : ℕ) => mn + (k : ℚ) * inc) := by
  apply genNumericLoop_eq (iterCount mn mx inc) _ mn mx inc hinc rfl
  rw [iterCount]
  split
  · rename_i hle
    have hfc : ⌊(mx - mn) / inc⌋ ≤ ⌈(mx - mn) / inc⌉ := Int.floor_le_ceil _
    have h0 : (0 : ℤ) ≤ ⌊(mx - mn) / inc⌋ :=
      Int.floor_nonneg.2 (div_nonneg (by linarith) hinc.le)
    omega
  · omega

theorem iterCount_of_le (mn mx inc : ℚ) (hle : mn ≤ mx) (hinc : 0 < inc) :
    iterCount mn mx inc = (⌊(mx - mn) / inc⌋).toNat + 1 := by
  rw [iterCount, if_pos hle]
  have h0 : (0 : ℤ) ≤ ⌊(mx - mn) / inc⌋ :=
    Int.floor_nonneg.2 (div_nonneg (by linarith) hinc.le)
  omega

theorem genNumericLoop_stop (fuel : ℕ) (v mx inc : ℚ) (h : ¬ v ≤ mx) :
    genNumericLoop (fuel + 1) v mx inc = some [] := by
  have hdef : genNumericLoop (fuel + 1) v mx inc =
      if v ≤ mx then
        match genNumericLoop fuel (v + inc) mx inc with
        | some rest => some (v :: rest)
        | none => none
      else some [] := rfl
  rw [hdef, if_neg h]

theorem generateNumericValues_gt (mn mx inc : ℚ) (h : mx < mn) :
    generateNumericValues mn mx inc = some [] := by
  have hshape : (⌈(mx - mn) / inc⌉).toNat + 2 = ((⌈(mx - mn) / inc⌉).toNat + 1) + 1 := rfl
  rw [generateNumericValues, hshape]
  exact genNumericLoop_stop _ _ _ _ (not_le.2 h)

theorem getConfigValue_applyVariation (base : Config) (v : VariableType)
    (value : JsVal) :
    getConfigValue (applyVariationToConfig base v value) v = value := by
  cases v <;> rfl

/-- C1: for a numeric sweep (values absent, swept variable not the
indexType enumeration) with integer min < max and integer increment > 0,
generateConfigurations returns exactly floor((max-min)/increment) + 1
configurations, and the configuration at 0-based position k carries
min + k * increment in its swept field. -/
theorem generateConfigurations_numeric_sweep (base : Config)
    (v : VariableType) (mn mx inc : ℤ) (hv : v ≠ .indexType)
    (hlt : mn < mx) (hinc : 0 < inc) :
    ∃ cfgs,
      generateConfigurations base ⟨v, (mn : ℚ), (mx : ℚ), (inc : ℚ), none⟩ = some cfgs ∧
      cfgs.length = (⌊((mx : ℚ) - (mn : ℚ)) / (inc : ℚ)⌋).toNat + 1 ∧
      ∀ k, k < cfgs.length →
        getConfigValue (cfgs.getD k base) v = .num ((mn : ℚ) + (k : ℚ) * (inc : ℚ)) := by
  have hincQ : (0 : ℚ) < (inc : ℚ) := by exact_mod_cast hinc
  have hleQ : (mn : ℚ) ≤ (mx : ℚ) := by exact_mod_cast hlt.le
  have hgen : generateConfigurations base ⟨v, (mn : ℚ), (mx : ℚ), (inc : ℚ), none⟩ =
      some (((List.range (iterCount (mn : ℚ) (mx : ℚ) (inc : ℚ))).map
        fun (k : ℕ) => (mn : ℚ) + (k : ℚ) * (inc : ℚ)).map
          fun q => applyVariationToConfig base v (.num q)) := by
    simp only [generateConfigurations, if_neg hv,
      generateNumericValues_eq _ _ _ hincQ, Option.map_some']
  refine ⟨_, hgen, ?_, ?_⟩
  · simp [iterCount_of_le _ _ _ hleQ hincQ]
  · intro k hk
    simp only [List.length_map, List.length_range] at hk
    rw [List.getD_eq_getElem _ _ (by simpa using hk)]
    simp only [List.getElem_map, List.getElem_range]
    exact getConfigValue_applyVariation base v _

/-- C1 witness: the spec's own scenario, sweeping documentsPerBatch from
100 to 1000 by 300 (4 configurations, value 100 + 300k at position k). -/
theorem generateConfigurations_numeric_sweep_witness :
    VariableType.documentsPerBatch ≠ VariableType.indexType ∧
    (100 : ℤ) < 1000 ∧ (0 : ℤ) < 300 ∧
    ∃ cfgs,
      generateConfigurations baseConfig0
        ⟨.documentsPerBatch, ((100 : ℤ) : ℚ), ((1000 : ℤ) : ℚ), ((300 : ℤ) : ℚ), none⟩ = some cfgs ∧
      cfgs.length = (⌊(((1000 : ℤ) : ℚ) - ((100 : ℤ) : ℚ)) / ((300 : ℤ) : ℚ)⌋).toNat + 1 ∧
      ∀ k, k < cfgs.length →
        getConfigValue (cfgs.getD k baseConfig0) .documentsPerBatch =
          .num (((100 : ℤ) : ℚ) + (k : ℚ) * ((300 : ℤ) : ℚ)) :=
  ⟨by decide, by decide, by decide,
   generateConfigurations_numeric_sweep baseConfig0 .documentsPerBatch 100 1000 300
     (by decide) (by decide) (by decide)⟩

/-- C3 counterexample: with min = 5 > max = 3 (and increment 1) the
numeric sweep raises no InvalidRangeError — no such error exists in the
source — and generateConfigurations returns the empty configuration list
normally. -/
theorem generateConfigurations_no_range_error :
    generateConfigurations baseConfig0
      ⟨.documentsPerBatch, 5, 3, 1, none⟩ = some [] := by
  have h := generateNumericValues_gt 5 3 1 (by norm_num)
  simp [generateConfigurations, h]

/-- C3 amended: configuration generation performs no range validation
and can raise no InvalidRangeError. For a numeric sweep, min > max
yields the empty configuration list normally; min = max with a positive
increment yields exactly one configuration; and increment <= 0 with
min <= max makes the sweep loop run forever (genNumericLoop exhausts
every fuel) instead of failing before generation. -/
theorem generateConfigurations_degenerate_ranges (base : Config)
    (v : VariableType) (hv : v ≠ .indexType) (mn mx inc : ℚ) :
    (mx < mn → generateConfigurations base ⟨v, mn, mx, inc, none⟩ = some []) ∧
    (0 < inc → mn = mx →
      generateConfigurations base ⟨v, mn, mx, inc, none⟩ =
        some [applyVariationToConfig base v (.num mn)]) ∧
    (inc ≤ 0 → mn ≤ mx → ∀ fuel, genNumericLoop fuel mn mx inc = none) := by
  refine ⟨?_, ?_, ?_⟩
  · intro h
    simp [generateConfigurations, hv, generateNumericValues_gt _ _ _ h]
  · intro hinc heq
    subst heq
    have hiter : iterCount mn mn inc = 1 := by
      rw [iterCount_of_le _ _ _ le_rfl hinc]
      simp
    simp [generateConfigurations, hv, generateNumericValues_eq _ _ _ hinc, hiter,
      List.range_succ]
  · intro hinc hle fuel
    exact genNumericLoop_divergent inc hinc fuel mn mx hle

/-- C3 witness: the amended behavior instantiated at the sweep 5..3 by
1 of the counterexample. -/
theorem generateConfigurations_degenerate_ranges_witness :
    VariableType.documentsPerBatch ≠ VariableType.indexType ∧
    (((3 : ℚ) < 5 →
        generateConfigurations baseConfig0
          ⟨.documentsPerBatch, 5, 3, 1, none⟩ = some []) ∧
     ((0 : ℚ) < 1 → (5 : ℚ) = 3 →
        generateConfigurations baseConfig0
          ⟨.documentsPerBatch, 5, 3, 1, none⟩ =
          some [applyVariationToConfig baseConfig0 .documentsPerBatch (.num 5)]) ∧
     ((1 : ℚ) ≤ 0 → (5 : ℚ) ≤ 3 → ∀ fuel, genNumericLoop fuel 5 3 1 = none)) :=
  ⟨by decide,
   generateConfigurations_degenerate_ranges baseConfig0 .documentsPerBatch
     (by decide) 5 3 1⟩

/-- C4: on base label x, the configuration generated for swept field
documentsPerBatch with value 500 carries exactly the label
x-documentsPerBatch-500, and the aggregator's extraction on any result
holding that configuration recovers the variable documentsPerBatch and
the typed value 500 read from the configuration's own field (the base
must carry a dataset-name tag, otherwise extraction refuses the file). -/
theorem label_round_trip (base : Config) (n : String)
    (hx : base.indexName = "x") (hc : base.chartName = some n) (hn : n ≠ "") :
    (applyVariationToConfig base .documentsPerBatch (.num 500)).indexName =
      "x-documentsPerBatch-500" ∧
    ∀ r : BenchmarkResult,
      r.config = applyVariationToConfig base .documentsPerBatch (.num 500) →
      extractChartInfo r = some ⟨n, "documentsPerBatch", .num 500⟩ := by
  have hlabel : (applyVariationToConfig base .documentsPerBatch (.num 500)).indexName =
      "x-documentsPerBatch-500" := by
    simp only [applyVariationToConfig, jsValToString, jsNumToString, hx]
    norm_num
    decide
  refine ⟨hlabel, ?_⟩
  intro r hr
  have hcfg : r.config.chartName = some n := by
    rw [hr]; exact hc
  have hidx : r.config.indexName = "x-documentsPerBatch-500" := by
    rw [hr]; exact hlabel
  have hval : r.config.documentsPerBatch = .num 500 := by
    rw [hr]; rfl
  rw [extractChartInfo, hcfg]
  simp only [if_neg hn, hidx, hval]
  have h1 : jsIncludes "x-documentsPerBatch-500" "-indexType-" = false := by decide
  have h2 : jsIncludes "x-documentsPerBatch-500" "-documentsPerBatch-" = true := by decide
  simp [h1, h2]

/-- C4 witness: the round trip instantiated at the concrete base
configuration with label x and dataset name Batch Size Scaling. -/
theorem label_round_trip_witness :
    baseConfig0.indexName = "x" ∧
    baseConfig0.chartName = some "Batch Size Scaling" ∧
    "Batch Size Scaling" ≠ "" ∧
    ((applyVariationToConfig baseConfig0 .documentsPerBatch (.num 500)).indexName =
        "x-documentsPerBatch-500" ∧
     ∀ r : BenchmarkResult,
       r.config = applyVariationToConfig baseConfig0 .documentsPerBatch (.num 500) →
       extractChartInfo r = some ⟨"Batch Size Scaling", "documentsPerBatch", .num 500⟩) :=
  ⟨rfl, rfl, by decide,
   label_round_trip baseConfig0 "Batch Size Scaling" rfl rfl (by decide)⟩

theorem foldl_add_map (f : ℚ → ℚ) :
    ∀ (l : List ℚ) (c : ℚ), l.foldl (fun a x => a + f x) c = c + (l.map f).sum := by
  intro l
  induction l with
  | nil => intro c; simp
  | cons x t ih =>
    intro c
    simp only [List.foldl_cons, List.map_cons, List.sum_cons, ih]
    ring

theorem sorted_getD_zero_le (l : List ℚ) (hs : l.Sorted (· ≤ ·)) :
    ∀ x ∈ l, l.getD 0 0 ≤ x := by
  cases l with
  | nil => intro x hx; cases hx
  | cons h t =>
    intro x hx
    rw [List.sorted_cons] at hs
    rcases List.mem_cons.1 hx with rfl | hxt
    · simp [List.getD]
    · simpa [List.getD] using hs.1 x hxt

theorem sorted_le_getD_last (l : List ℚ) (hs : l.Sorted (· ≤ ·)) :
    ∀ (d : ℚ), ∀ x ∈ l, x ≤ l.getD (l.length - 1) d := by
  induction l with
  | nil => intro d x hx; cases hx
  | cons h t ih =>
    intro d x hx
    rw [List.sorted_cons] at hs
    rcases List.mem_cons.1 hx with rfl | hxt
    · cases t with
      | nil => simp [List.getD]
      | cons h2 t2 =>
        have hh2 : x ≤ h2 := hs.1 h2 (List.mem_cons_self _ _)
        have h2le : h2 ≤ (h2 :: t2).getD ((h2 :: t2).length - 1) d :=
          ih hs.2 d h2 (List.mem_cons_self _ _)
        refine le_trans hh2 (le_trans h2le (le_of_eq ?_))
        simp only [List.length_cons]
        rw [show t2.length + 1 + 1 - 1 = (t2.length + 1 - 1) + 1 by omega,
          List.getD_cons_succ]
    · cases t with
      | nil => cases hxt
      | cons h2 t2 =>
        have := ih hs.2 d x hxt
        simp only [List.length_cons] at this ⊢
        rw [show t2.length + 1 + 1 - 1 = (t2.length + 1 - 1) + 1 by omega,
          List.getD_cons_succ]
        simpa using this

theorem getD_last_mem (l : List ℚ) (hl : l ≠ []) (d : ℚ) :
    l.getD (l.length - 1) d ∈ l := by
  induction l with
  | nil => exact absurd rfl hl
  | cons h t ih =>
    cases t with
    | nil => simp [List.getD]
    | cons h2 t2 =>
      simp only [List.length_cons]
      rw [show t2.length + 1 + 1 - 1 = (t2.length + 1 - 1) + 1 by omega,
        List.getD_cons_succ]
      refine List.mem_cons_of_mem h ?_
      simp

theorem nat_sqrt_24000000 : Nat.sqrt 24000000 = 4898 := by
  have h1 : 4898 ≤ Nat.sqrt 24000000 := Nat.le_sqrt.2 (by norm_num)
  have h2 : Nat.sqrt 24000000 < 4899 := Nat.sqrt_lt.2 (by norm_num)
  omega

/-- C5 amended: calculateStats computes count = length; mean = the
arithmetic mean rounded by toFixed(2); median = the middle of a sorted
copy (average of the two middle values for even length) rounded by
toFixed(2); min and max exactly the least and greatest sample (taken
from the sorted copy); std = the population (not sample-corrected)
standard deviation rounded by toFixed(2); an empty series yields
all-zero statistics with count 0 rather than failing, and
calculateStats [10, 20, 30] = {mean 20, median 20, min 10, max 30,
std 8.16, count 3}. -/
theorem calculateStats_spec (values : List ℚ) (h : values ≠ []) :
    (calculateStats values).count = values.length ∧
    (calculateStats values).mean = toFixed2 (values.sum / (values.length : ℚ)) ∧
    ((calculateStats values).median =
      toFixed2 (if values.length % 2 = 0 then
        ((values.insertionSort (· ≤ ·)).getD (values.length / 2 - 1) 0 +
         (values.insertionSort (· ≤ ·)).getD (values.length / 2) 0) / 2
      else (values.insertionSort (· ≤ ·)).getD (values.length / 2) 0)) ∧
    (values.insertionSort (· ≤ ·)).Sorted (· ≤ ·) ∧
    (values.insertionSort (· ≤ ·)).Perm values ∧
    (calculateStats values).min ∈ values ∧
    (∀ x ∈ values, (calculateStats values).min ≤ x) ∧
    (calculateStats values).max ∈ values ∧
    (∀ x ∈ values, x ≤ (calculateStats values).max) ∧
    (calculateStats values).std =
      sqrtToFixed2
        ((values.map fun x => (x - values.sum / (values.length : ℚ)) ^ 2).sum /
          (values.length : ℚ)) ∧
    calculateStats [] = ⟨0, 0, 0, 0, 0, 0⟩ ∧
    calculateStats [10, 20, 30] = ⟨20, 20, 10, 30, 816 / 100, 3⟩ := by
  have hlen : values.length ≠ 0 := by simpa using h
  have hperm := List.perm_insertionSort (· ≤ ·) values
  have hsorted := List.sorted_insertionSort (· ≤ ·) values
  have hslen : (values.insertionSort (· ≤ ·)).length = values.length :=
    hperm.length_eq
  have hsne : values.insertionSort (· ≤ ·) ≠ [] := by
    intro hcon
    rw [hcon] at hslen
    exact hlen hslen.symm
  have hcs : calculateStats values =
      ⟨toFixed2 (values.foldl (· + ·) 0 / (values.length : ℚ)),
       toFixed2
        (if (values.insertionSort (· ≤ ·)).length % 2 = 0 then
          ((values.insertionSort (· ≤ ·)).getD
              ((values.insertionSort (· ≤ ·)).length / 2 - 1) 0 +
            (values.insertionSort (· ≤ ·)).getD
              ((values.insertionSort (· ≤ ·)).length / 2) 0) / 2
        else (values.insertionSort (· ≤ ·)).getD
          ((values.insertionSort (· ≤ ·)).length / 2) 0),
       (values.insertionSort (· ≤ ·)).getD 0 0,
       (values.insertionSort (· ≤ ·)).getD
         ((values.insertionSort (· ≤ ·)).length - 1) 0,
       sqrtToFixed2
        (values.foldl
          (fun acc val => acc + (val - values.foldl (· + ·) 0 / (values.length : ℚ)) ^ 2) 0 /
          (values.length : ℚ)),
       values.length⟩ := by
    rw [calculateStats, if_neg hlen]
  have hsum : values.foldl (· + ·) 0 = values.sum := List.sum_eq_foldl.symm
  refine ⟨by rw [hcs], ?_, ?_, hsorted, hperm, ?_, ?_, ?_, ?_, ?_, rfl, ?_⟩
  · rw [hcs]
    simp only [hsum]
  · rw [hcs]
    simp only [hslen]
  · rw [hcs]
    show (values.insertionSort (· ≤ ·)).getD 0 0 ∈ values
    rw [← hperm.mem_iff]
    cases hsl : values.insertionSort (· ≤ ·) with
    | nil => exact absurd hsl hsne
    | cons a t => simp [List.getD]
  · intro x hx
    rw [hcs]
    exact sorted_getD_zero_le _ hsorted x (hperm.mem_iff.2 hx)
  · rw [hcs]
    show (values.insertionSort (· ≤ ·)).getD _ 0 ∈ values
    rw [← hperm.mem_iff]
    exact getD_last_mem _ hsne 0
  · intro x hx
    rw [hcs]
    exact sorted_le_getD_last _ hsorted 0 x (hperm.mem_iff.2 hx)
  · rw [hcs]
    show sqrtToFixed2 _ = _
    congr 1
    rw [hsum, foldl_add_map (fun x => (x - values.sum / (values.length : ℚ)) ^ 2)]
    simp
  · have hsort3 : List.insertionSort (· ≤ ·) [(10 : ℚ), 20, 30] = [10, 20, 30] := by
      simp [List.insertionSort, List.orderedInsert]
      norm_num
    have hnum : ((200 : ℚ) / 3).num = 200 := by norm_num
    have hden : ((200 : ℚ) / 3).den = 3 := by norm_num
    rw [calculateStats, if_neg (by norm_num)]
    simp only [hsort3, List.foldl_cons, List.foldl_nil, List.length_cons,
      List.length_nil]
    norm_num [toFixed2, sqrtToFixed2, List.getD, hnum, hden, nat_sqrt_24000000,
      Int.toNat_ofNat]
    norm_num [show Int.toNat 200 = 200 from rfl, nat_sqrt_24000000]

/-- C5 counterexample: calculateStats reports the mean rounded to two
decimals (toFixed(2)): on [1, 2, 4] it returns 2.33, not the arithmetic
mean 7/3. -/
theorem calculateStats_mean_rounded :
    (calculateStats [1, 2, 4]).mean = 233 / 100 ∧
    (calculateStats [1, 2, 4]).mean ≠ ((1 : ℚ) + 2 + 4) / 3 := by
  have hsort : List.insertionSort (· ≤ ·) [(1 : ℚ), 2, 4] = [1, 2, 4] := by
    norm_num [List.insertionSort, List.orderedInsert]
  have heval : (calculateStats [1, 2, 4]).mean = 233 / 100 := by
    rw [calculateStats, if_neg (by norm_num)]
    simp only [hsort, List.foldl_cons, List.foldl_nil, List.length_cons,
      List.length_nil]
    norm_num [toFixed2]
  exact ⟨heval, by rw [heval]; norm_num⟩

/-- C5 witness: the statistics characterization instantiated at the
spec's example series [10, 20, 30]. -/
theorem calculateStats_spec_witness :
    ([(10 : ℚ), 20, 30] ≠ []) ∧
    ((calculateStats [(10 : ℚ), 20, 30]).count = [(10 : ℚ), 20, 30].length ∧
     (calculateStats [(10 : ℚ), 20, 30]).mean =
       toFixed2 ([(10 : ℚ), 20, 30].sum / ([(10 : ℚ), 20, 30].length : ℚ)) ∧
     ((calculateStats [(10 : ℚ), 20, 30]).median =
       toFixed2 (if [(10 : ℚ), 20, 30].length % 2 = 0 then
         (([(10 : ℚ), 20, 30].insertionSort (· ≤ ·)).getD
             ([(10 : ℚ), 20, 30].length / 2 - 1) 0 +
          ([(10 : ℚ), 20, 30].insertionSort (· ≤ ·)).getD
             ([(10 : ℚ), 20, 30].length / 2) 0) / 2
       else ([(10 : ℚ), 20, 30].insertionSort (· ≤ ·)).getD
         ([(10 : ℚ), 20, 30].length / 2) 0)) ∧
     ([(10 : ℚ), 20, 30].insertionSort (· ≤ ·)).Sorted (· ≤ ·) ∧
     ([(10 : ℚ), 20, 30].insertionSort (· ≤ ·)).Perm [(10 : ℚ), 20, 30] ∧
     (calculateStats [(10 : ℚ), 20, 30]).min ∈ [(10 : ℚ), 20, 30] ∧
     (∀ x ∈ [(10 : ℚ), 20, 30], (calculateStats [(10 : ℚ), 20, 30]).min ≤ x) ∧
     (calculateStats [(10 : ℚ), 20, 30]).max ∈ [(10 : ℚ), 20, 30] ∧
     (∀ x ∈ [(10 : ℚ), 20, 30], x ≤ (calculateStats [(10 : ℚ), 20, 30]).max) ∧
     (calculateStats [(10 : ℚ), 20, 30]).std =
       sqrtToFixed2
         (([(10 : ℚ), 20, 30].map fun x =>
             (x - [(10 : ℚ), 20, 30].sum / ([(10 : ℚ), 20, 30].length : ℚ)) ^ 2).sum /
           ([(10 : ℚ), 20, 30].length : ℚ)) ∧
     calculateStats [] = ⟨0, 0, 0, 0, 0, 0⟩ ∧
     calculateStats [10, 20, 30] = ⟨20, 20, 10, 30, 816 / 100, 3⟩) :=
  ⟨by decide, calculateStats_spec [10, 20, 30] (by decide)⟩

theorem chunkArray_flatten {α : Type} (n : ℕ) :
    ∀ xs : List α, (chunkArray xs (n + 1)).flatten = xs := by
  have key : ∀ (len : ℕ) (xs : List α), xs.length = len →
      (chunkArray xs (n + 1)).flatten = xs := by
    intro len
    induction len using Nat.strong_induction_on with
    | _ len ih =>
      intro xs hlen
      cases xs with
      | nil => simp [chunkArray]
      | cons x t =>
        rw [chunkArray]
        rw [List.flatten_cons]
        have hrec := ih (t.drop n).length
          (by
            subst hlen
            simp only [List.length_drop, List.length_cons]
            omega)
          (t.drop n) rfl
        rw [hrec]
        rw [List.take_succ_cons]
        simp [List.take_append_drop]
  exact fun xs => key xs.length xs rfl

theorem processFilesInParallel_eq_foldl (mp : ℕ) (hmp : mp ≠ 0)
    (files : List (Option BenchmarkResult)) (s : ProcState) :
    processFilesInParallel mp files s = files.foldl processFile s := by
  obtain ⟨n, rfl⟩ : ∃ n, mp = n + 1 := ⟨mp - 1, by omega⟩
  rw [processFilesInParallel, ← List.foldl_flatten, chunkArray_flatten]

theorem foldl_processFile_drop_failures :
    ∀ (files : List (Option BenchmarkResult)) (s : ProcState),
      files.foldl processFile s = ((files.filterMap id).map some).foldl processFile s := by
  intro files
  induction files with
  | nil => intro s; rfl
  | cons f t ih =>
    intro s
    cases f with
    | none => simpa using ih s
    | some r => simpa using ih (processFile s (some r))

/-- C9: a result file whose read or parse fails is skipped without
aborting (processFile leaves the whole state unchanged on it), and
processAllResults returns exactly the datasets a directory holding only
the remaining parseable files would produce (stated for a run without a
pre-existing cache, so that the reduction itself is exercised). -/
theorem parse_failures_never_poison (fs : FsState) (hcache : fs.cacheFile = none) :
    (∀ s : ProcState, processFile s none = s) ∧
    (processAllResults {} fs).aggregations =
      (processAllResults {}
        ⟨(fs.resultFiles.filterMap id).map some, fs.dirMtime, none⟩).aggregations := by
  refine ⟨fun s => rfl, ?_⟩
  rw [processAllResults, processAllResults]
  simp only [isCacheValid, hcache]
  rw [processFilesInParallel_eq_foldl _ (by decide),
    processFilesInParallel_eq_foldl _ (by decide)]
  simp only [Bool.and_false]
  exact congrArg ProcState.aggregations (foldl_processFile_drop_failures fs.resultFiles ⟨[], 0⟩)

/-- C9 witness: the skip behavior instantiated on a directory whose
first file is malformed. -/
theorem parse_failures_never_poison_witness :
    fsWithBadFile.cacheFile = none ∧
    ((∀ s : ProcState, processFile s none = s) ∧
     (processAllResults {} fsWithBadFile).aggregations =
       (processAllResults {}
         ⟨(fsWithBadFile.resultFiles.filterMap id).map some,
          fsWithBadFile.dirMtime, none⟩).aggregations) :=
  ⟨rfl, parse_failures_never_poison fsWithBadFile rfl⟩

/-- C10: a result file that parses but whose configuration carries no
dataset-name tag contributes no samples: extraction returns none and
processFile leaves the aggregations untouched while still counting the
file as processed (unlike a parse failure, which does not advance the
counter). -/
theorem missing_chart_name_skipped (r : BenchmarkResult) (s : ProcState)
    (h : r.config.chartName = none) :
    extractChartInfo r = none ∧
    processFile s (some r) = ⟨s.aggregations, s.processedFiles + 1⟩ := by
  have hx : extractChartInfo r = none := by rw [extractChartInfo, h]
  exact ⟨hx, by simp [processFile, hx]⟩

/-- C10 witness: the silent skip instantiated on a concrete result
without a dataset-name tag, from the empty processor state. -/
theorem missing_chart_name_skipped_witness :
    resultNoChartName.config.chartName = none ∧
    (extractChartInfo resultNoChartName = none ∧
     processFile ⟨[], 0⟩ (some resultNoChartName) = ⟨[], 0 + 1⟩) :=
  ⟨rfl, missing_chart_name_skipped resultNoChartName ⟨[], 0⟩ rfl⟩

theorem alFind_cons {κ ν : Type} [DecidableEq κ] (k0 : κ) (v : ν) (t : List (κ × ν))
    (k : κ) : alFind ((k0, v) :: t) k = if k0 = k then some v else alFind t k := by
  by_cases h : k0 = k <;> simp [alFind, List.find?, h]

theorem alModify_cons {κ ν : Type} [DecidableEq κ] (k0 : κ) (v : ν) (t : List (κ × ν))
    (k : κ) (f : ν → ν) :
    alModify ((k0, v) :: t) k f =
      if k0 = k then (k0, f v) :: t else (k0, v) :: alModify t k f := rfl

theorem alContains_eq_isSome {κ ν : Type} [DecidableEq κ] (m : List (κ × ν)) (k : κ) :
    (m.any fun p => p.1 = k) = (alFind m k).isSome := by
  induction m with
  | nil => rfl
  | cons p t ih =>
    obtain ⟨k0, v⟩ := p
    rw [List.any_cons, alFind_cons]
    by_cases h : k0 = k
    · simp [h]
    · simpa [h] using ih

theorem alFind_append_right {κ ν : Type} [DecidableEq κ] (m l : List (κ × ν)) (k : κ)
    (h : alFind m k = none) : alFind (m ++ l) k = alFind l k := by
  induction m with
  | nil => rfl
  | cons p t ih =>
    obtain ⟨k0, v⟩ := p
    rw [alFind_cons] at h
    by_cases hp : k0 = k
    · rw [if_pos hp] at h
      cases h
    · rw [if_neg hp] at h
      rw [List.cons_append, alFind_cons, if_neg hp]
      exact ih h

theorem alFind_modify_self {κ ν : Type} [DecidableEq κ] (m : List (κ × ν)) (k : κ)
    (f : ν → ν) : alFind (alModify m k f) k = (alFind m k).map f := by
  induction m with
  | nil => rfl
  | cons p t ih =>
    obtain ⟨k0, v⟩ := p
    rw [alModify_cons, alFind_cons]
    by_cases hp : k0 = k
    · rw [if_pos hp, alFind_cons, if_pos hp, if_pos hp]
      rfl
    · rw [if_neg hp, alFind_cons, if_neg hp, if_neg hp]
      exact ih

theorem alFind_modify_ne {κ ν : Type} [DecidableEq κ] (m : List (κ × ν)) (k k' : κ)
    (f : ν → ν) (h : k' ≠ k) : alFind (alModify m k f) k' = alFind m k' := by
  induction m with
  | nil => rfl
  | cons p t ih =>
    obtain ⟨k0, v⟩ := p
    rw [alModify_cons, alFind_cons]
    by_cases hp : k0 = k
    · have hne : ¬ k0 = k' := fun hc => h (by rw [← hc, hp])
      rw [if_pos hp, alFind_cons, if_neg hne, if_neg hne]
    · rw [if_neg hp, alFind_cons]
      by_cases hp' : k0 = k'
      · rw [if_pos hp', if_pos hp']
      · rw [if_neg hp', if_neg hp']
        exact ih

theorem alModify_keys {κ ν : Type} [DecidableEq κ] (m : List (κ × ν)) (k : κ)
    (f : ν → ν) : (alModify m k f).map (·.1) = m.map (·.1) := by
  induction m with
  | nil => rfl
  | cons p t ih =>
    obtain ⟨k0, v⟩ := p
    rw [alModify_cons]
    by_cases hp : k0 = k
    · rw [if_pos hp]
      simp
    · rw [if_neg hp]
      simpa using ih

theorem alAppendIfAbsent_of_found {κ ν : Type} [DecidableEq κ] (m : List (κ × ν))
    (k : κ) (v w : ν) (h : alFind m k = some w) : alAppendIfAbsent m k v = m := by
  rw [alAppendIfAbsent, if_pos]
  rw [alContains_eq_isSome, h]
  rfl

theorem alAppendIfAbsent_of_absent {κ ν : Type} [DecidableEq κ] (m : List (κ × ν))
    (k : κ) (v : ν) (h : alFind m k = none) : alAppendIfAbsent m k v = m ++ [(k, v)] := by
  rw [alAppendIfAbsent, if_neg]
  rw [alContains_eq_isSome, h]
  simp

theorem alAppendIfAbsent_keys_mem {κ ν : Type} [DecidableEq κ] (m : List (κ × ν))
    (k : κ) (v : ν) :
    (alAppendIfAbsent m k v).map (·.1) =
      if k ∈ m.map (·.1) then m.map (·.1) else m.map (·.1) ++ [k] := by
  have hmem : (m.any fun p => p.1 = k) = true ↔ k ∈ m.map (·.1) := by
    simp [List.any_eq_true]
  rw [alAppendIfAbsent]
  by_cases h : k ∈ m.map (·.1)
  · rw [if_pos (hmem.2 h), if_pos h]
  · rw [if_neg fun hc => h (hmem.1 hc), if_neg h]
    simp

theorem alModify_push_values (m : List (JsVal × DataPoint)) (k : JsVal)
    (r : BenchmarkResult) :
    (alModify m k (pushSamples r)).map (fun q => q.2.varValue) =
      m.map fun q => q.2.varValue := by
  induction m with
  | nil => rfl
  | cons p t ih =>
    obtain ⟨k0, v⟩ := p
    rw [alModify_cons]
    by_cases hp : k0 = k
    · rw [if_pos hp]
      simp [pushSamples]
    · rw [if_neg hp]
      simpa using ih

theorem alFind_append_left {κ ν : Type} [DecidableEq κ] (m l : List (κ × ν)) (k : κ)
    (w : ν) (h : alFind m k = some w) : alFind (m ++ l) k = some w := by
  induction m with
  | nil => cases h
  | cons p t ih =>
    obtain ⟨k0, v⟩ := p
    rw [alFind_cons] at h
    rw [List.cons_append, alFind_cons]
    by_cases hp : k0 = k
    · rw [if_pos hp] at h
      rw [if_pos hp]
      exact h
    · rw [if_neg hp] at h
      rw [if_neg hp]
      exact ih h

theorem alAppendIfAbsent_values (m : List (JsVal × DataPoint)) (k : JsVal)
    (dp : DataPoint) (hdp : dp.varValue = k) :
    (alAppendIfAbsent m k dp).map (fun q => q.2.varValue) =
      if k ∈ m.map (·.1) then m.map (fun q => q.2.varValue)
      else m.map (fun q => q.2.varValue) ++ [k] := by
  have hmem : (m.any fun p => p.1 = k) = true ↔ k ∈ m.map (·.1) := by
    simp [List.any_eq_true]
  rw [alAppendIfAbsent]
  by_cases h : k ∈ m.map (·.1)
  · rw [if_pos (hmem.2 h), if_pos h]
  · rw [if_neg fun hc => h (hmem.1 hc), if_neg h]
    simp [hdp]

theorem updateAggregation_keys_self (aggs : List (String × ChartAggregation))
    (info : ChartInfo) (r : BenchmarkResult) :
    dpKeysO (updateAggregation aggs info r) info.chartName =
      stepFO (dpKeysO aggs info.chartName) info.value := by
  simp only [updateAggregation, dpKeysO, stepFO]
  cases hfind : alFind aggs info.chartName with
  | some agg =>
    rw [alAppendIfAbsent_of_found _ _ _ _ hfind, alFind_modify_self, hfind]
    simp only [Option.map_some', Option.getD_some]
    rw [alModify_keys, alAppendIfAbsent_keys_mem, addFirstOccurrence]
  | none =>
    rw [alAppendIfAbsent_of_absent _ _ _ hfind, alFind_modify_self,
      alFind_append_right _ _ _ hfind, alFind_cons, if_pos rfl]
    simp only [Option.map_some', Option.map_none', Option.getD_none]
    rw [alModify_keys, alAppendIfAbsent_keys_mem]
    simp [addFirstOccurrence]

theorem updateAggregation_keys_ne (aggs : List (String × ChartAggregation))
    (info : ChartInfo) (r : BenchmarkResult) (chart : String)
    (h : chart ≠ info.chartName) :
    dpKeysO (updateAggregation aggs info r) chart = dpKeysO aggs chart := by
  simp only [updateAggregation, dpKeysO]
  rw [alFind_modify_ne _ _ _ _ h]
  cases hfind : alFind aggs info.chartName with
  | some agg => rw [alAppendIfAbsent_of_found _ _ _ _ hfind]
  | none =>
    rw [alAppendIfAbsent_of_absent _ _ _ hfind]
    cases hfc : alFind aggs chart with
    | some w => rw [alFind_append_left _ _ _ _ hfc]
    | none =>
      rw [alFind_append_right _ _ _ hfc, alFind_cons,
        if_neg fun hc => h hc.symm]
      rfl

theorem updateAggregation_values_self (aggs : List (String × ChartAggregation))
    (info : ChartInfo) (r : BenchmarkResult)
    (heq : dpValuesO aggs info.chartName = dpKeysO aggs info.chartName) :
    dpValuesO (updateAggregation aggs info r) info.chartName =
      stepFO (dpValuesO aggs info.chartName) info.value := by
  simp only [updateAggregation, dpValuesO, stepFO]
  cases hfind : alFind aggs info.chartName with
  | some agg =>
    have hkv : agg.dataPoints.map (fun q => q.2.varValue) = agg.dataPoints.map (·.1) := by
      simp only [dpValuesO, dpKeysO, hfind, Option.map_some'] at heq
      exact Option.some.inj heq
    rw [alAppendIfAbsent_of_found _ _ _ _ hfind, alFind_modify_self, hfind]
    simp only [Option.map_some', Option.getD_some]
    rw [alModify_push_values,
      alAppendIfAbsent_values agg.dataPoints info.value ⟨info.value, [], [], [], [], []⟩ rfl,
      hkv, addFirstOccurrence]
  | none =>
    rw [alAppendIfAbsent_of_absent _ _ _ hfind, alFind_modify_self,
      alFind_append_right _ _ _ hfind, alFind_cons, if_pos rfl]
    simp only [Option.map_some', Option.map_none', Option.getD_none]
    rw [alModify_push_values,
      alAppendIfAbsent_values [] info.value ⟨info.value, [], [], [], [], []⟩ rfl]
    simp [addFirstOccurrence]

theorem updateAggregation_values_ne (aggs : List (String × ChartAggregation))
    (info : ChartInfo) (r : BenchmarkResult) (chart : String)
    (h : chart ≠ info.chartName) :
    dpValuesO (updateAggregation aggs info r) chart = dpValuesO aggs chart := by
  simp only [updateAggregation, dpValuesO]
  rw [alFind_modify_ne _ _ _ _ h]
  cases hfind : alFind aggs info.chartName with
  | some agg => rw [alAppendIfAbsent_of_found _ _ _ _ hfind]
  | none =>
    rw [alAppendIfAbsent_of_absent _ _ _ hfind]
    cases hfc : alFind aggs chart with
    | some w => rw [alFind_append_left _ _ _ _ hfc]
    | none =>
      rw [alFind_append_right _ _ _ hfc, alFind_cons,
        if_neg fun hc => h hc.symm]
      rfl

theorem foldl_processFile_invariant :
    ∀ (files : List (Option BenchmarkResult)) (s : ProcState) (chart : String),
      dpValuesO s.aggregations chart = dpKeysO s.aggregations chart →
      dpKeysO ((files.foldl processFile s).aggregations) chart =
        (extractedValuesFor chart files).foldl stepFO (dpKeysO s.aggregations chart) ∧
      dpValuesO ((files.foldl processFile s).aggregations) chart =
        dpKeysO ((files.foldl processFile s).aggregations) chart := by
  intro files
  induction files with
  | nil => intro s chart heq; exact ⟨rfl, heq⟩
  | cons f t ih =>
    intro s chart heq
    rw [List.foldl_cons]
    cases f with
    | none =>
      have h2 : extractedValuesFor chart (none :: t) = extractedValuesFor chart t := by
        simp [extractedValuesFor]
      rw [h2]
      exact ih s chart heq
    | some r =>
      cases hx : extractChartInfo r with
      | none =>
        have h1 : processFile s (some r) = ⟨s.aggregations, s.processedFiles + 1⟩ := by
          simp [processFile, hx]
        have h2 : extractedValuesFor chart (some r :: t) = extractedValuesFor chart t := by
          simp [extractedValuesFor, hx]
        rw [h1, h2]
        exact ih ⟨s.aggregations, s.processedFiles + 1⟩ chart heq
      | some info =>
        have h1 : processFile s (some r) =
            ⟨updateAggregation s.aggregations info r, s.processedFiles + 1⟩ := by
          simp [processFile, hx]
        rw [h1]
        by_cases hcc : info.chartName = chart
        · subst hcc
          have h2 : extractedValuesFor info.chartName (some r :: t) =
              info.value :: extractedValuesFor info.chartName t := by
            simp [extractedValuesFor, hx]
          rw [h2, List.foldl_cons]
          have hkeys := updateAggregation_keys_self s.aggregations info r
          have hvals := updateAggregation_values_self s.aggregations info r heq
          have heq' : dpValuesO (updateAggregation s.aggregations info r) info.chartName =
              dpKeysO (updateAggregation s.aggregations info r) info.chartName := by
            rw [hkeys, hvals, heq]
          obtain ⟨ih1, ih2⟩ :=
            ih ⟨updateAggregation s.aggregations info r, s.processedFiles + 1⟩
              info.chartName heq'
          refine ⟨?_, ih2⟩
          rw [ih1]
          show (extractedValuesFor info.chartName t).foldl stepFO
              (dpKeysO (updateAggregation s.aggregations info r) info.chartName) = _
          rw [hkeys]
        · have h2 : extractedValuesFor chart (some r :: t) = extractedValuesFor chart t := by
            simp only [extractedValuesFor, List.filterMap_cons, hx]
            rw [if_neg hcc]
          rw [h2]
          have hkeys := updateAggregation_keys_ne s.aggregations info r chart
            fun hc => hcc hc.symm
          have hvals := updateAggregation_values_ne s.aggregations info r chart
            fun hc => hcc hc.symm
          have heq' : dpValuesO (updateAggregation s.aggregations info r) chart =
              dpKeysO (updateAggregation s.aggregations info r) chart := by
            rw [hkeys, hvals, heq]
          obtain ⟨ih1, ih2⟩ :=
            ih ⟨updateAggregation s.aggregations info r, s.processedFiles + 1⟩ chart heq'
          refine ⟨?_, ih2⟩
          rw [ih1]
          show (extractedValuesFor chart t).foldl stepFO
              (dpKeysO (updateAggregation s.aggregations info r) chart) = _
          rw [hkeys]

theorem foldl_stepFO_some :
    ∀ (vs : List JsVal) (acc : List JsVal),
      vs.foldl stepFO (some acc) = some (vs.foldl addFirstOccurrence acc) := by
  intro vs
  induction vs with
  | nil => intro acc; rfl
  | cons v t ih =>
    intro acc
    rw [List.foldl_cons, List.foldl_cons]
    show t.foldl stepFO (some (addFirstOccurrence acc v)) = _
    exact ih (addFirstOccurrence acc v)

theorem foldl_stepFO_none (vs : List JsVal) :
    vs.foldl stepFO none =
      if vs = [] then none else some (firstOccurrences vs) := by
  cases vs with
  | nil => rfl
  | cons v t =>
    rw [if_neg (List.cons_ne_nil v t)]
    rw [List.foldl_cons]
    show t.foldl stepFO (some (addFirstOccurrence [] v)) = _
    rw [foldl_stepFO_some]
    rfl

theorem processAllResults_no_cache (fs : FsState) (hc : fs.cacheFile = none) :
    processAllResults {} fs =
      ⟨(fs.resultFiles.foldl processFile ⟨[], 0⟩).aggregations,
       { fs with cacheFile := some (CacheFile.mk fs.dirMtime
          (serializeAggregations (fs.resultFiles.foldl processFile ⟨[], 0⟩).aggregations)) },
       fs.resultFiles.length⟩ := by
  rw [processAllResults]
  simp only [isCacheValid, hc, Bool.and_false]
  rw [if_neg (by simp)]
  rw [processFilesInParallel_eq_foldl _ (by decide)]
  rfl

theorem jsValToString_700 : jsValToString (JsVal.num 700) = "700" := by
  rw [jsValToString, jsNumToString, if_pos (by norm_num : ((700 : ℚ)).den = 1),
    show ((700 : ℚ)).num = 700 by norm_num]
  decide

theorem jsValToString_500 : jsValToString (JsVal.num 500) = "500" := by
  rw [jsValToString, jsNumToString, if_pos (by norm_num : ((500 : ℚ)).den = 1),
    show ((500 : ℚ)).num = 500 by norm_num]
  decide

theorem extract_sample_700 (ix up tot : ℚ) :
    extractChartInfo
      (sampleResult (applyVariationToConfig baseConfig0 .documentsPerBatch (.num 700)) ix up tot) =
      some ⟨"Batch Size Scaling", "documentsPerBatch", .num 700⟩ := by
  have hidx : (applyVariationToConfig baseConfig0 .documentsPerBatch (.num 700)).indexName =
      "x-documentsPerBatch-700" := by
    show "x" ++ "-" ++ "documentsPerBatch" ++ "-" ++ jsValToString (JsVal.num 700) = _
    rw [jsValToString_700]
    decide
  rw [extractChartInfo]
  simp only [sampleResult]
  rw [show (applyVariationToConfig baseConfig0 .documentsPerBatch (.num 700)).chartName =
    some "Batch Size Scaling" from rfl]
  rw [hidx]
  simp only [if_neg (by decide : ¬ ("Batch Size Scaling" : String) = "")]
  rw [show jsIncludes "x-documentsPerBatch-700" "-indexType-" = false by decide]
  rw [show jsIncludes "x-documentsPerBatch-700" "-documentsPerBatch-" = true by decide]
  simp
  rfl

theorem extract_sample_500 (ix up tot : ℚ) :
    extractChartInfo
      (sampleResult (applyVariationToConfig baseConfig0 .documentsPerBatch (.num 500)) ix up tot) =
      some ⟨"Batch Size Scaling", "documentsPerBatch", .num 500⟩ := by
  have hidx : (applyVariationToConfig baseConfig0 .documentsPerBatch (.num 500)).indexName =
      "x-documentsPerBatch-500" := by
    show "x" ++ "-" ++ "documentsPerBatch" ++ "-" ++ jsValToString (JsVal.num 500) = _
    rw [jsValToString_500]
    decide
  rw [extractChartInfo]
  simp only [sampleResult]
  rw [show (applyVariationToConfig baseConfig0 .documentsPerBatch (.num 500)).chartName =
    some "Batch Size Scaling" from rfl]
  rw [hidx]
  simp only [if_neg (by decide : ¬ ("Batch Size Scaling" : String) = "")]
  rw [show jsIncludes "x-documentsPerBatch-500" "-indexType-" = false by decide]
  rw [show jsIncludes "x-documentsPerBatch-500" "-documentsPerBatch-" = true by decide]
  simp
  rfl

/-- C7 counterexample: on a result directory whose two files arrive with
swept values 700 then 500, loadChartData returns one chart whose points
carry the values in encounter order 700, 500 — not sorted ascending by
value as claimed. -/
theorem assembler_points_not_sorted :
    ((loadChartData fsTwoFiles).1.map fun cd => cd.dataPoints.map (·.varValue)) =
      [[.num 700, .num 500]] ∧
    ¬ valuesSortedAsc [.num 700, .num 500] := by
  constructor
  · have hx700 := extract_sample_700 20 30 60
    have hx500 := extract_sample_500 10 15 25
    rw [loadChartData, processAllResults_no_cache fsTwoFiles rfl]
    show ((([some (sampleResult (applyVariationToConfig baseConfig0 .documentsPerBatch (.num 700)) 20 30 60),
        some (sampleResult (applyVariationToConfig baseConfig0 .documentsPerBatch (.num 500)) 10 15 25)].foldl
          processFile ⟨[], 0⟩).aggregations).map fun p =>
            (chartDataOfAggregation p.1 p.2).dataPoints.map (·.varValue)) = _
    rw [List.foldl_cons, List.foldl_cons, List.foldl_nil]
    simp only [processFile, hx700, hx500]
    simp only [updateAggregation, alAppendIfAbsent, alModify, alFind, List.any_nil,
      List.any_cons, chartDataOfAggregation, List.map_map]
    norm_num [pushSamples, List.map]
  · simp only [valuesSortedAsc, List.chain'_cons, List.chain'_singleton, and_true]
    simp only [valueLE, chartSortKey]
    norm_num

/-- C7 amended: the assembler applies no sort; the points of a chart,
when the chart exists, stand in first-encounter order of the swept
values across the processed files (the ascending numeric/lexical sort of
the claim is applied later, inside the chart renderer's grouping).
Stated for a run without a pre-existing cache, via loadChartDataByName,
whose per-dataset conversion is the same chartDataOfAggregation body
loadChartData maps over every dataset. -/
theorem assembler_points_first_encounter (fs : FsState) (hc : fs.cacheFile = none)
    (chart : String) :
    ((loadChartDataByName chart fs).1.map fun cd => cd.dataPoints.map (·.varValue)) =
      if extractedValuesFor chart fs.resultFiles = [] then none
      else some (firstOccurrences (extractedValuesFor chart fs.resultFiles)) := by
  rw [loadChartDataByName, processAllResults_no_cache fs hc]
  obtain ⟨hkeys, hvals⟩ :=
    foldl_processFile_invariant fs.resultFiles ⟨[], 0⟩ chart rfl
  show ((alFind (fs.resultFiles.foldl processFile ⟨[], 0⟩).aggregations chart).map
      (chartDataOfAggregation chart)).map (fun cd => cd.dataPoints.map (·.varValue)) = _
  rw [Option.map_map]
  have hbody : ((fun cd => cd.dataPoints.map (·.varValue)) ∘ chartDataOfAggregation chart) =
      fun agg => agg.dataPoints.map fun q => q.2.varValue := by
    funext agg
    simp [chartDataOfAggregation, List.map_map]
  rw [hbody]
  show dpValuesO (fs.resultFiles.foldl processFile ⟨[], 0⟩).aggregations chart = _
  rw [hvals, hkeys]
  show (extractedValuesFor chart fs.resultFiles).foldl stepFO none = _
  rw [foldl_stepFO_none]

/-- C7 witness: the first-encounter-order characterization instantiated
on the two-file directory of the counterexample. -/
theorem assembler_points_first_encounter_witness :
    fsTwoFiles.cacheFile = none ∧
    ((loadChartDataByName "Batch Size Scaling" fsTwoFiles).1.map
        fun cd => cd.dataPoints.map (·.varValue)) =
      (if extractedValuesFor "Batch Size Scaling" fsTwoFiles.resultFiles = [] then none
       else some (firstOccurrences
         (extractedValuesFor "Batch Size Scaling" fsTwoFiles.resultFiles))) :=
  ⟨rfl, assembler_points_first_encounter fsTwoFiles rfl "Batch Size Scaling"⟩

theorem alFind_map_snd {κ ν ν' : Type} [DecidableEq κ] (m : List (κ × ν))
    (T : ν → ν') (k : κ) :
    alFind (m.map fun p => (p.1, T p.2)) k = (alFind m k).map T := by
  induction m with
  | nil => rfl
  | cons p t ih =>
    obtain ⟨k0, v⟩ := p
    rw [List.map_cons, alFind_cons, alFind_cons]
    by_cases hp : k0 = k
    · rw [if_pos hp, if_pos hp]
      rfl
    · rw [if_neg hp, if_neg hp]
      exact ih

theorem deserialize_serialize_eq_map (aggs : List (String × ChartAggregation)) :
    deserializeAggregations (serializeAggregations aggs) =
      aggs.map fun p =>
        (p.1, ⟨p.2.chartName, p.2.varName,
          p.2.dataPoints.map fun q => (JsVal.str (jsValToString q.1), q.2)⟩) := by
  simp [deserializeAggregations, serializeAggregations, List.map_map, Function.comp,
    List.map_map]

theorem chartData_deserialize_serialize (aggs : List (String × ChartAggregation)) :
    ((deserializeAggregations (serializeAggregations aggs)).map
       fun p => chartDataOfAggregation p.1 p.2) =
      aggs.map fun p => chartDataOfAggregation p.1 p.2 := by
  rw [deserialize_serialize_eq_map, List.map_map]
  apply List.map_congr_left
  intro p _
  simp [chartDataOfAggregation, List.map_map, Function.comp]

theorem dpKeysO_deserialize_serialize (aggs : List (String × ChartAggregation))
    (chart : String) :
    dpKeysO (deserializeAggregations (serializeAggregations aggs)) chart =
      (dpKeysO aggs chart).map fun keys =>
        keys.map fun k => JsVal.str (jsValToString k) := by
  induction aggs with
  | nil => rfl
  | cons p t ih =>
    obtain ⟨k0, agg⟩ := p
    simp only [serializeAggregations, deserializeAggregations, List.map_cons]
      at ih ⊢
    rw [dpKeysO, alFind_cons, dpKeysO, alFind_cons]
    by_cases hp : k0 = chart
    · rw [if_pos hp, if_pos hp]
      simp [List.map_map, Function.comp]
    · rw [if_neg hp, if_neg hp]
      exact ih

theorem processAllResults_cache_hit (fs : FsState) (c : CacheFile)
    (hc : fs.cacheFile = some c) (hv : fs.dirMtime ≤ c.resultsLastModified) :
    processAllResults {} fs = ⟨deserializeAggregations c.aggregations, fs, 0⟩ := by
  have hvalid : isCacheValid fs = true := by
    simp only [isCacheValid, hc]
    exact decide_eq_true hv
  rw [processAllResults,
    if_pos (show (({} : ProcessorOptions).enableCache && isCacheValid fs) = true by
      simp [hvalid])]
  rw [hc]

/-- C6 amended: calling the aggregator a second time on an unchanged
result directory takes the cache path (the stored timestamp equals the
directory's modification time, so the cache is valid) and performs zero
result-file reads, and the second call's map is the JSON round trip of
the first call's — equal dataset names, variables, and data-point
values, hence identical assembled chart data — but its data-point KEYS
are the stringified forms of the first call's, so the reconstructed map
itself equals the rebuild's only up to key stringification (exactly for
string-valued sweeps). Stated for a first call without a pre-existing
cache. -/
theorem cache_hit_zero_reads (fs : FsState) (hc : fs.cacheFile = none) :
    isCacheValid (processAllResults {} fs).fsAfter = true ∧
    (processAllResults {} (processAllResults {} fs).fsAfter).filesRead = 0 ∧
    (processAllResults {} (processAllResults {} fs).fsAfter).aggregations =
      deserializeAggregations
        (serializeAggregations (processAllResults {} fs).aggregations) ∧
    ((processAllResults {} (processAllResults {} fs).fsAfter).aggregations.map
       fun p => chartDataOfAggregation p.1 p.2) =
      ((processAllResults {} fs).aggregations.map
       fun p => chartDataOfAggregation p.1 p.2) := by
  rw [processAllResults_no_cache fs hc]
  rw [processAllResults_cache_hit _ _ rfl (le_refl _)]
  refine ⟨by simp [isCacheValid], rfl, rfl, chartData_deserialize_serialize _⟩

/-- C6 witness: the cache-hit behavior instantiated on the one-file
directory of the counterexample. -/
theorem cache_hit_zero_reads_witness :
    fsOneFile.cacheFile = none ∧
    (isCacheValid (processAllResults {} fsOneFile).fsAfter = true ∧
     (processAllResults {} (processAllResults {} fsOneFile).fsAfter).filesRead = 0 ∧
     (processAllResults {} (processAllResults {} fsOneFile).fsAfter).aggregations =
       deserializeAggregations
         (serializeAggregations (processAllResults {} fsOneFile).aggregations) ∧
     ((processAllResults {} (processAllResults {} fsOneFile).fsAfter).aggregations.map
        fun p => chartDataOfAggregation p.1 p.2) =
       ((processAllResults {} fsOneFile).aggregations.map
        fun p => chartDataOfAggregation p.1 p.2)) :=
  ⟨rfl, cache_hit_zero_reads fsOneFile rfl⟩

/-- C6 counterexample: on a directory holding one result for the numeric
swept value 500, the map the second (cache-hit) call reconstructs is not
equal to the map the first call's full rebuild produced: the JSON round
trip turned the data-point key 500 into the string key "500". -/
theorem cache_roundtrip_changes_keys :
    (processAllResults {} (processAllResults {} fsOneFile).fsAfter).aggregations ≠
      (processAllResults {} fsOneFile).aggregations := by
  have hx500 := extract_sample_500 20 30 60
  have hkeys1 : dpKeysO (processAllResults {} fsOneFile).aggregations
      "Batch Size Scaling" = some [.num 500] := by
    rw [processAllResults_no_cache fsOneFile rfl]
    obtain ⟨hkeys, _⟩ :=
      foldl_processFile_invariant fsOneFile.resultFiles ⟨[], 0⟩ "Batch Size Scaling" rfl
    rw [hkeys]
    have hev : extractedValuesFor "Batch Size Scaling" fsOneFile.resultFiles =
        [.num 500] := by
      simp [extractedValuesFor, fsOneFile, hx500]
    rw [hev]
    simp [stepFO, addFirstOccurrence, dpKeysO, alFind]
  have hsecond : (processAllResults {} (processAllResults {} fsOneFile).fsAfter).aggregations =
      deserializeAggregations
        (serializeAggregations (processAllResults {} fsOneFile).aggregations) := by
    rw [processAllResults_no_cache fsOneFile rfl]
    rw [processAllResults_cache_hit _ _ rfl (le_refl _)]
  have hkeys2 : dpKeysO (processAllResults {} (processAllResults {} fsOneFile).fsAfter).aggregations
      "Batch Size Scaling" = some [.str "500"] := by
    rw [hsecond, dpKeysO_deserialize_serialize, hkeys1]
    simp [jsValToString_500]
  intro hcon
  rw [hcon, hkeys1] at hkeys2
  simp at hkeys2

/-- C8: the product-structure revision of applyVariationToConfig is not
side-effect-free. Its shallow spread leaves the copy's searchQueries
aliased to the base's, and the descriptionWordLength branch assigns
through that alias, so after the call — and hence after
generateConfigurations — the base configuration's nested searchQueries
record has changed: its full-text field list becomes the recomputed
searchable fields and its fuzzy-search field becomes description. The
failing input below sweeps descriptionWordLength with value 5 on a base
whose fuzzy-search field is name. -/
theorem legacy_applyVariation_mutates_base :
    legacyBase0.searchQueries.fullTextSearch.fields = ["name", "description"] ∧
    legacyBase0.searchQueries.fuzzySearch.field = "name" ∧
    ((applyVariationToConfigLegacy legacyBase0 .descriptionWordLength (.num 5)).map
      fun p => p.2.searchQueries.fuzzySearch.field) = .ok "description" ∧
    ((applyVariationToConfigLegacy legacyBase0 .descriptionWordLength (.num 5)).map
      fun p => p.2.searchQueries.fullTextSearch.fields) = .ok ["description", "name"] ∧
    ((generateConfigurationsLegacy legacyBase0
        ⟨.descriptionWordLength, 5, 5, 1, none⟩).map
      (Except.map fun p => p.2.searchQueries.fuzzySearch.field)) =
      some (.ok "description") := by
  have hgsf : getSearchableFields (generateProductStructure
      { additionalFields := 1, totalWords := jsValToQ (.num 5) }) =
      ["description", "name"] := by
    simp only [generateProductStructure, getSearchableFields, jsValToQ]
    norm_num [List.range_succ, List.filter]
    decide
  have happly : applyVariationToConfigLegacy legacyBase0 .descriptionWordLength (.num 5) =
      .ok
        ({ legacyBase0 with
             indexName := legacyBase0.indexName ++ "-" ++
               LegacyVariableType.name .descriptionWordLength ++ "-" ++
               jsValToString (.num 5)
             productStructure := some (generateProductStructure
               { additionalFields := 1, totalWords := jsValToQ (.num 5) })
             searchQueries :=
               { legacyBase0.searchQueries with
                   fullTextSearch :=
                     { legacyBase0.searchQueries.fullTextSearch with
                         fields := ["description", "name"] }
                   fuzzySearch :=
                     { legacyBase0.searchQueries.fuzzySearch with
                         field := "description" } } },
         { legacyBase0 with
             searchQueries :=
               { legacyBase0.searchQueries with
                   fullTextSearch :=
                     { legacyBase0.searchQueries.fullTextSearch with
                         fields := ["description", "name"] }
                   fuzzySearch :=
                     { legacyBase0.searchQueries.fuzzySearch with
                         field := "description" } } }) := by
    simp only [applyVariationToConfigLegacy, hgsf, headFieldOr, List.head?]
    rfl
  refine ⟨rfl, rfl, ?_, ?_, ?_⟩
  · rw [happly]
    rfl
  · rw [happly]
    rfl
  · have hvals : generateNumericValues 5 5 1 = some [5] := by
      rw [generateNumericValues_eq 5 5 1 (by norm_num)]
      rw [iterCount_of_le 5 5 1 le_rfl (by norm_num)]
      norm_num [List.range_succ]
    rw [generateConfigurationsLegacy]
    simp only [hvals]
    show some (Except.map _ (applyAllLegacy legacyBase0 .descriptionWordLength [.num 5])) = _
    rw [applyAllLegacy]
    simp only [happly]
    rfl

end Bench
